import Mathlib

/-!
Verification of the wearable dock controller (three C sources:
`wearable_dock.c`, `dfu_and_extract.c`, `bin2json_mqtt.c`) against its
natural-language specification.  C strings and paths are modelled as
lists of characters, bytes as natural numbers below 256, machine
integers as `Nat`/`Int` with explicit modular arithmetic, and every
external effect (mount, copy, rename, …) as an explicit oracle input
recording the outcome the operating system would report.
-/

/-- A C string (no interior NUL bytes are relevant to any claim). -/
abbrev CStr := List Char

/-- The constant `PATH_MAX` as fixed in all three sources. -/
def PATH_MAX : Nat := 4096

/-- ASCII lower-casing of a single character, as `tolower`/`strcasecmp` do. -/
def toLowerAscii (c : Char) : Char :=
  if 'A' ≤ c ∧ c ≤ 'Z' then Char.ofNat (c.toNat + 32) else c

/-- Test `strcasecmp(a,b) == 0`: equality after ASCII lower-casing. -/
def strcaseEq (a b : String) : Bool :=
  a.data.map toLowerAscii = b.data.map toLowerAscii

/-!
Single-precision (IEEE 754 binary32) arithmetic, modelled exactly on `ℚ`.
The decoders compute `raw / 100.0f` and `p / 100.0f` in `float`: the
operand is first converted to `float` (one round-to-nearest-even), the
division is then correctly rounded (a second rounding).  Every value the
programs feed through this path lies well inside the normal range of
`binary32` (magnitude in `[2^{-59}, 2^{61})` or zero), so the model below
covers exactly the reachable behaviour: a 24-bit significand rounded to
nearest, ties to even.
-/

/-- Round to nearest integer, ties to even (the IEEE default). -/
def rne (m : ℚ) : ℤ :=
  let f := ⌊m⌋
  let r := m - f
  if r < 1 / 2 then f
  else if 1 / 2 < r then f + 1
  else if f % 2 = 0 then f else f + 1

/-- Fuel-bounded search for `⌊log₂ q⌋`: starting at exponent `e`, decrement
until `2^e ≤ q`. -/
def qlog2Aux : Nat → ℤ → ℚ → ℤ
  | 0, e, _ => e
  | fuel + 1, e, q => if (2 : ℚ) ^ e ≤ q then e else qlog2Aux fuel (e - 1) q

/-- Floor of `log₂ q` for positive `q` in `[2^{-59}, 2^{61})`. -/
def qlog2 (q : ℚ) : ℤ := qlog2Aux 120 60 q

/-- Round a positive rational to 24 significant binary digits
(round to nearest, ties to even): the `binary32` value of `q`. -/
def fl32pos (q : ℚ) : ℚ :=
  let e := qlog2 q - 23
  ((rne (q / 2 ^ e) : ℤ) : ℚ) * 2 ^ e

/-- The `binary32` (single-precision float) value nearest `q`, for the
normal-range values the decoders produce. -/
def fl32 (q : ℚ) : ℚ :=
  if q = 0 then 0
  else if q < 0 then -fl32pos (-q)
  else fl32pos q

namespace WearableDock

/-! ## `wearable_dock.c` : constants and small helpers -/

def WEARABLE_VENDOR_HEX : String := "0001"
def WEARABLE_PRODUCT_HEX : String := "0001"
def MOUNT_POINT : CStr := "/mnt/wearable".data
def SESSIONS_BASE : CStr := "/home/torus-4/wearable_dock/extracted".data
def LOGS_SUBDIR : CStr := "logs".data
def RECORD_SIZE : Nat := 4 + 4 + 6 * 2

/-- Function `join_path(a, b, out, out_sz)`: `snprintf(out, out_sz, "%s/%s", a, b)`
followed by the overflow check `n < 0 || n >= out_sz`, which reports
`ENAMETOOLONG` (`none`) instead of returning a truncated path. -/
def join_path (a b : CStr) (out_sz : Nat) : Option CStr :=
  let s := a ++ '/' :: b
  if out_sz ≤ s.length then none else some s

/-! ## Telemetry decoding (`decode_record`) -/

/-- Little-endian reassembly of an unsigned 32-bit value from four bytes. -/
def le32 (b0 b1 b2 b3 : Nat) : Nat :=
  b0 + 256 * b1 + 65536 * b2 + 16777216 * b3

/-- Little-endian reassembly of a two's-complement signed 16-bit value. -/
def le16s (b0 b1 : Nat) : Int :=
  let u := b0 + 256 * b1
  if u < 32768 then (u : Int) else (u : Int) - 65536

/-- Constant `IMU_SCALE` (the code divides by the float constant `100.0f`;
the quotient is modelled exactly in `ℚ`). -/
def IMU_SCALE : ℚ := 100

/-- A decoded telemetry record of the extended (20-byte) layout. -/
structure TelemetryRecord where
  timestamp_ms : Nat
  pressure_pa : ℚ
  acc : ℚ × ℚ × ℚ
  gyr : ℚ × ℚ × ℚ
deriving DecidableEq, Repr

/-- One channel conversion `raw[i] / IMU_SCALE` in `float`: the `int16` is
converted to `float` (exact below 2²⁴, but modelled with the rounding the
hardware performs), then the single-precision division rounds once more. -/
def chan32 (v : Int) : ℚ := fl32 (fl32 (v : ℚ) / IMU_SCALE)

/-- The pressure conversion `p / 100.0f` in `float`: the `uint32` is
converted to `float` (a genuine rounding for `p ≥ 2²⁴`), then the
single-precision division rounds the quotient. -/
def press32 (p : Nat) : ℚ := fl32 (fl32 (p : ℚ) / 100)

/-- Function `decode_record`: split a 20-byte (`RECORD_SIZE`) buffer into the `uint32`
timestamp, the `uint32` pressure and six `int16` channel samples (all
little-endian, `memcpy` offsets 0, 4 and 8+2·i), then scale each sample and
the pressure by `1/100.0f` in single precision.  A buffer of any other size
is not a record (`fread` returning fewer bytes ends the stream). -/
def decode_record (buf : List Nat) : Option TelemetryRecord :=
  match buf with
  | [t0, t1, t2, t3, p0, p1, p2, p3,
     a0, a1, b0, b1, c0, c1, d0, d1, e0, e1, f0, f1] =>
    some { timestamp_ms := le32 t0 t1 t2 t3
           pressure_pa := press32 (le32 p0 p1 p2 p3)
           acc := (chan32 (le16s a0 a1), chan32 (le16s b0 b1),
                   chan32 (le16s c0 c1))
           gyr := (chan32 (le16s d0 d1), chan32 (le16s e0 e1),
                   chan32 (le16s f0 f1)) }
  | _ => none

/-- Little-endian byte encoding of an unsigned 32-bit value
(how the firmware lays the timestamp and pressure out on disk). -/
def encodeU32 (x : Nat) : List Nat :=
  [x % 256, x / 256 % 256, x / 65536 % 256, x / 16777216 % 256]

/-- Little-endian two's-complement byte encoding of a signed 16-bit value. -/
def encodeI16 (v : Int) : List Nat :=
  let m := (v % 65536).toNat
  [m % 256, m / 256]

/-- A full 20-byte record as the firmware writes it. -/
def encodeRecord (ts p : Nat) (v0 v1 v2 v3 v4 v5 : Int) : List Nat :=
  encodeU32 ts ++ encodeU32 p ++
    encodeI16 v0 ++ encodeI16 v1 ++ encodeI16 v2 ++
    encodeI16 v3 ++ encodeI16 v4 ++ encodeI16 v5

/-- Exact value in hundredths: the integer that `%.2f` prints after the
two-decimal rounding of a value (for values that are exact hundredths). -/
def hundredths (q : ℚ) : ℤ := round (q * 100)

/-! ## File selection and the extraction loop -/

/-- Test `d_name[0] == '.'`: dot-initial entries are skipped. -/
def isDotName (n : CStr) : Bool :=
  match n with
  | c :: _ => c = '.'
  | [] => false

/-- Model of `strrchr(name, '.')`: the suffix of `name` starting at its last `'.'`
(inclusive), or `none` when the name has no dot. -/
def ext_of : CStr → Option CStr
  | [] => none
  | c :: rest =>
    match ext_of rest with
    | some e => some e
    | none => if c = '.' then some (c :: rest) else none

/-- The selection test both `copy_and_delete_logs` and `convert_and_publish`
apply: not dot-initial, and the last-dot suffix compares equal (`strcmp`)
to `".BIN"` or to `".bin"`. -/
def isBinEntry (n : CStr) : Bool :=
  !isDotName n &&
    (ext_of n = some ".BIN".data || ext_of n = some ".bin".data)

/-- The file-selection test at the decoder site (`convert_and_publish`'s
`readdir` loop), written there as the same expression as in
`copy_and_delete_logs`. -/
def convertSelects (n : CStr) : Bool :=
  !isDotName n &&
    (ext_of n = some ".BIN".data || ext_of n = some ".bin".data)

/-- The claim's wording of the selection test: the extension equals
`".bin"` compared case-insensitively (for the refinement comparison with
`isBinEntry`; not part of the code). -/
def caseInsensitiveBinExt (n : CStr) : Bool :=
  !isDotName n &&
    ((ext_of n).map (List.map toLowerAscii) = some ".bin".data)

/-- What one run of `copy_and_delete_logs` did, per source file name. -/
structure ExtractResult where
  /-- names for which a copy was attempted (paths joined successfully) -/
  attempted : List CStr
  /-- names whose `copy_file` returned 0 -/
  copied : List CStr
  /-- names whose source was `unlink`ed (only inside the copy-success branch) -/
  deleted : List CStr
deriving DecidableEq, Repr

/-- The `readdir` loop of `copy_and_delete_logs` over the entry names of the
source logs directory.  `copyOk f` is the outcome `copy_file` reports for file `f`
(open/read/write/short-write failures make it `false`); `unlinkOk f` is the
outcome of `unlink`.  Skipped or failed files never stop the loop. -/
def copy_and_delete_logs (src_logs dest_logs : CStr)
    (entries : List CStr) (copyOk unlinkOk : CStr → Bool) : ExtractResult :=
  match entries with
  | [] => ⟨[], [], []⟩
  | n :: rest =>
    let r := copy_and_delete_logs src_logs dest_logs rest copyOk unlinkOk
    if isBinEntry n = false then r
    else if (join_path src_logs n PATH_MAX).isNone ||
            (join_path dest_logs n PATH_MAX).isNone then r
    else if copyOk n then
      { attempted := n :: r.attempted
        copied := n :: r.copied
        deleted := if unlinkOk n then n :: r.deleted else r.deleted }
    else
      { attempted := n :: r.attempted, copied := r.copied, deleted := r.deleted }

/-- Names eligible for extraction: selected by `isBinEntry` and with both
joined paths within `PATH_MAX`. -/
def eligibleEntry (src_logs dest_logs : CStr) (n : CStr) : Bool :=
  isBinEntry n && !(join_path src_logs n PATH_MAX).isNone &&
    !(join_path dest_logs n PATH_MAX).isNone

/-! ## The marker poll of `handle_device` -/

/-- One execution of `handle_device`'s wait loop
`int tries = 50; while (tries-- > 0) { if (<marker present>) break; usleep(100ms); }`,
returning the final value of `tries`.  `present k` says whether the
`stat`+`S_ISDIR` test succeeds at the k-th poll (k starts at 0); `fuel`
bounds the recursion and is passed as 51 ≥ the initial counter + 1. -/
def pollLoopAux (present : Nat → Bool) : Nat → Nat → Int → Int
  | 0, _, tries => tries
  | fuel + 1, k, tries =>
    if 0 < tries then
      if present k then tries - 1
      else pollLoopAux present fuel (k + 1) (tries - 1)
    else tries - 1

/-- Final value of `tries` after the marker-wait loop of `handle_device`. -/
def pollTries (present : Nat → Bool) : Int :=
  pollLoopAux present 52 0 50

/-! ## The device-visit handler -/

/-- Environment outcomes one visit of `handle_device` can observe. -/
structure StageOracle where
  /-- whether `mount_exfat` succeeded (device node found, `mount -t exfat` exit 0) -/
  mountOk : Bool
  /-- marker test result at each poll of the wait loop -/
  present : Nat → Bool
  /-- whether `make_session_dir` succeeded (`strftime` + both `mkdir`s) -/
  mkSessionOk : Bool
  /-- the `YYYYMMDD_HHMMSS` stamp `make_session_dir` formats -/
  stamp : CStr
  /-- entry names `readdir` yields in the source logs directory -/
  entries : List CStr
  /-- per-file `copy_file` outcome -/
  copyOk : CStr → Bool
  /-- per-file `unlink` outcome -/
  unlinkOk : CStr → Bool
  /-- whether `opendir(src_logs)` succeeded inside `copy_and_delete_logs` -/
  openLogsOk : Bool
  /-- whether `convert_and_publish` returned 0 -/
  convertOk : Bool
  /-- whether the `rename` into the archive root succeeded -/
  archiveRenameOk : Bool
deriving Inhabited

/-- Observable summary of one `handle_device` visit. -/
structure VisitReport where
  mounted : Bool
  sessionCreated : Bool
  extractionRan : Bool
  extraction : ExtractResult
  convertRan : Bool
  archiverRan : Bool
  /-- whether `ensure_unmounted` ran after the mount (every post-mount exit path) -/
  unmountedAtEnd : Bool
deriving Repr

/-- The abort report shared by every early `return` after a mount. -/
def abortAfterMount (sessionCreated : Bool) : VisitReport :=
  { mounted := true, sessionCreated := sessionCreated, extractionRan := false
    extraction := ⟨[], [], []⟩, convertRan := false, archiverRan := false
    unmountedAtEnd := true }

/-- Function `handle_device(disk_devnode)` of `wearable_dock.c`: mount, wait for the
`logs` marker directory, create the session directory, copy-and-delete the
logs, unmount, decode/publish, archive.  Every failure path is the code's
own early `return`. -/
def handle_device (o : StageOracle) : VisitReport :=
  if o.mountOk = false then
    { mounted := false, sessionCreated := false, extractionRan := false
      extraction := ⟨[], [], []⟩, convertRan := false, archiverRan := false
      unmountedAtEnd := false }
  else
    match join_path MOUNT_POINT LOGS_SUBDIR PATH_MAX with
    | none => abortAfterMount false
    | some src_logs =>
      if pollTries o.present ≤ 0 then abortAfterMount false
      else if o.mkSessionOk = false then abortAfterMount false
      else
        match join_path (SESSIONS_BASE ++ '/' :: o.stamp) LOGS_SUBDIR PATH_MAX with
        | none => abortAfterMount true
        | some dest_logs =>
          let ex :=
            if o.openLogsOk then
              copy_and_delete_logs src_logs dest_logs o.entries o.copyOk o.unlinkOk
            else ⟨[], [], []⟩
          { mounted := true, sessionCreated := true
            extractionRan := o.openLogsOk, extraction := ex
            convertRan := true, archiverRan := true, unmountedAtEnd := true }

/-! ## The hotplug wait and the main loop -/

/-- A udev event as `wait_for_device` sees it (`NULL` properties are `none`). -/
structure WEvent where
  action : Option String
  subsystem : Option String
  devtype : Option String
  vid : Option String
  pid : Option String
  node : Option String
deriving DecidableEq, Repr

/-- The match test of `wait_for_device`: requested action, subsystem
`"block"`, devtype `"disk"`, and `strcasecmp`-equal vendor/product ids. -/
def matchesTarget (target : String) (e : WEvent) : Bool :=
  e.action = some target && e.subsystem = some "block" &&
    e.devtype = some "disk" &&
    (match e.vid, e.pid with
     | some v, some p =>
       strcaseEq v WEARABLE_VENDOR_HEX && strcaseEq p WEARABLE_PRODUCT_HEX
     | _, _ => false)

/-- Function `wait_for_device`: consume events until one matches the target action,
returning it and the unconsumed rest (`none` when the stream ends). -/
def wait_for_device (target : String) : List WEvent → Option (WEvent × List WEvent)
  | [] => none
  | e :: rest =>
    if matchesTarget target e then some (e, rest)
    else wait_for_device target rest

/-- The `main` loop of `wearable_dock.c`, by event-consumption phase:
phase `false` is "waiting for USB add" (the `wait_for_device(mon, "add")`
call), phase `true` is "waiting for removal".  A matching add runs the
visit handler synchronously and moves to the removal wait; every other
event is consumed and ignored.  `oracles` supplies each visit's stage
outcomes in order; the loop itself never consults the reports. -/
def dockRun : Bool → List WEvent → List StageOracle → List VisitReport
  | _, [], _ => []
  | false, e :: rest, oracles =>
    if matchesTarget "add" e then
      handle_device (oracles.headD default) :: dockRun true rest oracles.tail
    else dockRun false rest oracles
  | true, e :: rest, oracles =>
    if matchesTarget "remove" e then dockRun false rest oracles
    else dockRun true rest oracles

end WearableDock

namespace DfuExtract

/-! ## `dfu_and_extract.c` : constants -/

def VENDOR_ID : String := "0001"
def PRODUCT_ID : String := "0001"
def MOUNT_POINT : CStr := "/mnt/wearable".data
def DEST_BASE : CStr := "/home/torus-pi5/wearable_dock/extracted".data
def FW_DIR : CStr := "/home/torus-pi5/wearable_dock/new_firmware".data
def FW_ARCHIVE : CStr :=
  "/home/torus-pi5/wearable_dock/new_firmware/archive".data

/-! ## The firmware update (`perform_dfu`) -/

/-- Where the candidate firmware image ends up after `perform_dfu`. -/
inductive ImageDisposition where
  /-- still a direct entry of the watched directory `FW_DIR` -/
  | inWatchedDir
  /-- image moved by `rename` to the given timestamped path under `FW_ARCHIVE` -/
  | archivedAt (p : CStr)
  /-- the `rename` failed and the image was removed by `unlink` -/
  | unlinked
deriving DecidableEq, Repr

/-- Function `perform_dfu(serial, bin)`: run `dfu-util -s <serial> -e` (detach), then
`dfu-util -a 1 -D <bin>` (download); a nonzero exit of either step returns
−1 with the image left in place.  On success, `rename` the image to
`FW_ARCHIVE "/%Y%m%d_%H%M%S.bin"` (`stamp` is the formatted wall-clock
time), falling back to `unlink` when the rename fails — but the `unlink`
return value is ignored, so when both the rename and the fallback unlink
fail the image stays in the watched directory while the function still
returns 0.  `detachExit` and `downloadExit` are the `run_child` results of
the two invoked steps; `renameOk` and `unlinkOk` are the outcomes the
filesystem reports for the two removal attempts. -/
def perform_dfu (detachExit downloadExit : Int) (renameOk unlinkOk : Bool)
    (stamp : CStr) : Int × ImageDisposition :=
  if detachExit ≠ 0 then (-1, .inWatchedDir)
  else if downloadExit ≠ 0 then (-1, .inWatchedDir)
  else if renameOk then
    (0, .archivedAt (FW_ARCHIVE ++ '/' :: (stamp ++ ".bin".data)))
  else if unlinkOk then (0, .unlinked)
  else (0, .inWatchedDir)

/-- Effect of a disposition on the watched directory's entry listing:
both `rename` (to a path under the `archive` subdirectory) and `unlink`
remove the image's own entry from `FW_DIR`. -/
def applyDisposition (watched : List CStr) (binName : CStr) :
    ImageDisposition → List CStr
  | .inWatchedDir => watched
  | .archivedAt _ => watched.filter (· ≠ binName)
  | .unlinked => watched.filter (· ≠ binName)

/-! ## The per-visit workflow (`handle_device`) -/

/-- Environment outcomes one `handle_device` visit of `dfu_and_extract.c`
can observe. -/
structure DfuVisitOracle where
  /-- result of `next_firmware()`: the first `*.bin` (not `*.bin.done`) in `FW_DIR` -/
  fw : Option CStr
  /-- whether `get_dfu_serial` returned 0 -/
  serialOk : Bool
  /-- exit status of the detach step -/
  detachExit : Int
  /-- exit status of the download step -/
  downloadExit : Int
  /-- the archive `rename` succeeded -/
  renameOk : Bool
  /-- the fallback `unlink` succeeded (its result is ignored by the code) -/
  unlinkOk : Bool
  /-- the wall-clock `%Y%m%d_%H%M%S` stamp -/
  stamp : CStr
  /-- the `find_block_dev` retry result (up to 30 × 500 ms) -/
  devnode : Option CStr
  /-- whether `start_lfs` returned a pid ≥ 0 -/
  lfsStartOk : Bool
  /-- whether `copy_tree` returned 0 -/
  copyTreeOk : Bool
  /-- whether `clear_tree` returned 0 -/
  clearTreeOk : Bool
deriving Inhabited

/-- Observable summary of one `handle_device` visit of `dfu_and_extract.c`. -/
structure DfuVisitReport where
  /-- a firmware image existed and `perform_dfu` was invoked -/
  dfuAttempted : Bool
  /-- result of `perform_dfu` when invoked -/
  dfuResult : Option (Int × ImageDisposition)
  /-- extraction reached the copy step (device node found, helper started) -/
  extractionRan : Bool
  /-- whether `copy_tree` succeeded -/
  extracted : Bool
  /-- the source flash was wiped (`clear_tree` after a successful copy) -/
  wiped : Bool
deriving DecidableEq, Repr

/-- Function `handle_device(udev)` of `dfu_and_extract.c`: optional DFU (skipped when
no image or no serial; its failure does not stop the visit), then block
device search, LittleFS mount, whole-tree copy, and source wipe only after
a fully successful copy. -/
def handle_device (o : DfuVisitOracle) : DfuVisitReport :=
  let dfu : Bool × Option (Int × ImageDisposition) :=
    match o.fw with
    | none => (false, none)
    | some _ =>
      if o.serialOk then
        (true, some (perform_dfu o.detachExit o.downloadExit o.renameOk
          o.unlinkOk o.stamp))
      else (false, none)
  match o.devnode with
  | none =>
    { dfuAttempted := dfu.1, dfuResult := dfu.2
      extractionRan := false, extracted := false, wiped := false }
  | some _ =>
    if o.lfsStartOk = false then
      { dfuAttempted := dfu.1, dfuResult := dfu.2
        extractionRan := false, extracted := false, wiped := false }
    else
      { dfuAttempted := dfu.1, dfuResult := dfu.2
        extractionRan := true, extracted := o.copyTreeOk
        wiped := o.copyTreeOk && o.clearTreeOk }

/-! ## The debounced hotplug state machine (`main`) -/

/-- A udev `usb_device` event as `main` reads it (`NULL` values are `none`). -/
structure UEvent where
  action : Option String
  vid : Option String
  pid : Option String
  spath : String
deriving DecidableEq, Repr

/-- The orchestrator state: the globals `debouncing`, `current_usb_path`
and `remove_seen_at_ms` (0 = no matching remove seen yet). -/
structure DfuState where
  debouncing : Bool
  current_usb_path : String
  remove_seen_at_ms : Nat
deriving DecidableEq, Repr

/-- The globals' initial values. -/
def initState : DfuState := ⟨false, "", 0⟩

/-- The add-branch guard: `action == "add"` and exact (`strcmp`) vendor and
product id match. -/
def isMatchingAdd (e : UEvent) : Bool :=
  e.action = some "add" && e.vid = some VENDOR_ID && e.pid = some PRODUCT_ID

/-- The remove-branch guard: `action == "remove"` and the event's syspath
equals the recorded `current_usb_path`. -/
def isMatchingRemove (s : DfuState) (e : UEvent) : Bool :=
  e.action = some "remove" && e.spath = s.current_usb_path

/-- The head-of-loop quiescence test: `debouncing && remove_seen_at_ms > 0
&& now_ms() - remove_seen_at_ms > 500`. -/
def quiesceExpired (s : DfuState) (now : Nat) : Bool :=
  s.debouncing && decide (0 < s.remove_seen_at_ms) &&
    decide (500 < now - s.remove_seen_at_ms)

/-- Step 1 of each loop iteration: return to idle when the quiescence
window has elapsed. -/
def tickState (s : DfuState) (now : Nat) : DfuState :=
  if quiesceExpired s now then initState else s

/-- One full iteration of `main`'s loop: the quiescence check, then the
(possibly timed-out, `ev = none`) poll for a udev event, then the add /
remove branches.  Returns the new globals and the report of the visit run
in this iteration, if any.  `o` supplies the visit's environment. -/
def dfuStepFull (s : DfuState) (now : Nat) (ev : Option UEvent)
    (o : DfuVisitOracle) : DfuState × Option DfuVisitReport :=
  let s1 := tickState s now
  match ev with
  | none => (s1, none)
  | some e =>
    if !s1.debouncing && isMatchingAdd e then
      (⟨true, e.spath, 0⟩, some (handle_device o))
    else if s1.debouncing && isMatchingRemove s1 e then
      (⟨true, s1.current_usb_path, now⟩, none)
    else (s1, none)

/-- The control-flow projection of `dfuStepFull`: the new globals and
whether a visit ran (the loop never reads the visit's outcome). -/
def dfuStep (s : DfuState) (now : Nat) (ev : Option UEvent) :
    DfuState × Bool :=
  let s1 := tickState s now
  match ev with
  | none => (s1, false)
  | some e =>
    if !s1.debouncing && isMatchingAdd e then
      (⟨true, e.spath, 0⟩, true)
    else if s1.debouncing && isMatchingRemove s1 e then
      (⟨true, s1.current_usb_path, now⟩, false)
    else (s1, false)

/-- The loop run over a finite input trace of (poll time, polled event)
pairs, recording after each iteration the new state and whether a visit
ran in that iteration. -/
def dfuTrace (s : DfuState) : List (Nat × Option UEvent) → List (DfuState × Bool)
  | [] => []
  | (now, ev) :: rest =>
    let r := dfuStep s now ev
    r :: dfuTrace r.1 rest

/-- Final state after a trace. -/
def dfuFinal (s : DfuState) (tr : List (Nat × Option UEvent)) : DfuState :=
  (dfuTrace s tr).getLastD (s, false) |>.1

/-! ## `cp_cb`: destination path building in the tree copy -/

/-- Model of `snprintf(dst, sz, …)`: it keeps only the first `sz − 1` formatted bytes. -/
def snprintf_trunc (s : CStr) (sz : Nat) : CStr := s.take (sz - 1)

/-- The `dst` buffer `cp_cb` builds:
`snprintf(dst, sizeof dst, "%s%s", dst_root, f + strlen(src_root))` —
an unchecked bounded write whose result is used whether or not the
formatted path fit in `PATH_MAX`. -/
def cp_cb_dst (dst_root src_root f : CStr) : CStr :=
  snprintf_trunc (dst_root ++ f.drop src_root.length) PATH_MAX

end DfuExtract

namespace Bin2Json

/-! ## `bin2json_mqtt.c` : the short (16-byte) record layout -/

def EXTRACTED_BASE : CStr := "/home/torus-pi5/wearable_dock/extracted".data
def ARCHIVE_SUBDIR : CStr := "archive".data
def BIN_NAME : CStr := "imu_log.bin".data
def RECORD_SIZE : Nat := 4 + 6 * 2
def SCALE_FACTOR : ℚ := 100

/-- A decoded record of the short (16-byte) layout: no pressure field. -/
structure ShortRecord where
  timestamp_ms : Nat
  acc : ℚ × ℚ × ℚ
  gyr : ℚ × ℚ × ℚ
deriving DecidableEq, Repr

/-- One channel conversion `v[i] / SCALE_FACTOR` in `float`, as in
`bin2json_mqtt.c`'s record loop. -/
def chan32s (v : Int) : ℚ := fl32 (fl32 (v : ℚ) / SCALE_FACTOR)

/-- The per-record conversion of `bin2json_mqtt.c`'s main loop: a `uint32`
timestamp at offset 0 and six `int16` samples at offsets 4+2·i, each sample
divided by `SCALE_FACTOR` in single precision. -/
def decode_short (buf : List Nat) : Option ShortRecord :=
  match buf with
  | [t0, t1, t2, t3, a0, a1, b0, b1, c0, c1, d0, d1, e0, e1, f0, f1] =>
    some { timestamp_ms := WearableDock.le32 t0 t1 t2 t3
           acc := (chan32s (WearableDock.le16s a0 a1),
                   chan32s (WearableDock.le16s b0 b1),
                   chan32s (WearableDock.le16s c0 c1))
           gyr := (chan32s (WearableDock.le16s d0 d1),
                   chan32s (WearableDock.le16s e0 e1),
                   chan32s (WearableDock.le16s f0 f1)) }
  | _ => none

/-- A full 16-byte short-layout record as the firmware writes it. -/
def encodeShort (ts : Nat) (v0 v1 v2 v3 v4 v5 : Int) : List Nat :=
  WearableDock.encodeU32 ts ++
    WearableDock.encodeI16 v0 ++ WearableDock.encodeI16 v1 ++
    WearableDock.encodeI16 v2 ++ WearableDock.encodeI16 v3 ++
    WearableDock.encodeI16 v4 ++ WearableDock.encodeI16 v5

/-! ## `path_join` -/

/-- Function `path_join(a, b, out)`: length-check `la + 1 + lb >= PATH_MAX` first
and report an error (`none`) without writing anything; otherwise write
`a ++ "/" ++ b`. -/
def path_join (a b : CStr) : Option CStr :=
  if PATH_MAX ≤ a.length + 1 + b.length then none
  else some (a ++ '/' :: b)

/-! ## `find_latest_folder` -/

/-- The sign-only content of C `strcmp` on NUL-free byte strings. -/
def strcmp : CStr → CStr → Int
  | [], [] => 0
  | [], _ :: _ => -1
  | _ :: _, [] => 1
  | a :: as, b :: bs =>
    if a.toNat < b.toNat then -1
    else if b.toNat < a.toNat then 1
    else strcmp as bs

/-- A `readdir` entry as `find_latest_folder` inspects it. -/
structure DirEnt where
  d_name : CStr
  /-- whether `d_type == DT_DIR` -/
  isDirectory : Bool
deriving DecidableEq, Repr

/-- The skip tests of `find_latest_folder`'s loop: non-directories, `"."`,
`".."` and the `archive` subdirectory are never candidates. -/
def eligibleDir (e : DirEnt) : Bool :=
  e.isDirectory && e.d_name ≠ ".".data && e.d_name ≠ "..".data &&
    e.d_name ≠ ARCHIVE_SUBDIR

/-- One iteration of the `readdir` loop: keep the better of `best` and the
current entry (`!best || strcmp(e->d_name, best) > 0`). -/
def bestStep (best : Option CStr) (e : DirEnt) : Option CStr :=
  if eligibleDir e = false then best
  else
    match best with
    | none => some e.d_name
    | some b => if 0 < strcmp e.d_name b then some e.d_name else best

/-- Function `find_latest_folder`: fold the loop over the `readdir` listing. -/
def find_latest_folder (entries : List DirEnt) : Option CStr :=
  entries.foldl bestStep none

/-! ## `main` -/

/-- Observable summary of one run of `bin2json_mqtt`. -/
structure RunResult where
  exitCode : Int
  /-- the folder whose `imu_log.bin` was decoded and published -/
  processed : Option CStr
  /-- the folder `rename`d into the archive subdirectory -/
  archived : Option CStr
deriving DecidableEq, Repr

/-- Function `main()` of `bin2json_mqtt.c`: locate the lexicographically greatest
timestamped folder, open its `imu_log.bin`, publish all records, then move
the folder into `archive/`.  `openOk`, `mqttOk`, `mkArchiveOk`, `renameOk`
are the outcomes of `fopen`, MQTT setup, archive-directory preparation and
the final `rename` (whose failure is explicitly "not fatal"). -/
def bin2json_main (entries : List DirEnt)
    (openOk mqttOk mkArchiveOk renameOk : Bool) : RunResult :=
  match find_latest_folder entries with
  | none => ⟨1, none, none⟩
  | some ts =>
    match path_join EXTRACTED_BASE ts with
    | none => ⟨1, none, none⟩
    | some folder_path =>
      match path_join folder_path BIN_NAME with
      | none => ⟨1, none, none⟩
      | some _ =>
        if openOk = false then ⟨1, none, none⟩
        else if mqttOk = false then ⟨1, none, none⟩
        else
          match path_join EXTRACTED_BASE ARCHIVE_SUBDIR with
          | none => ⟨1, some ts, none⟩
          | some archive_dir =>
            if mkArchiveOk = false then ⟨1, some ts, none⟩
            else
              match path_join archive_dir ts with
              | none => ⟨1, some ts, none⟩
              | some _ =>
                if renameOk then ⟨0, some ts, some ts⟩
                else ⟨0, some ts, none⟩

end Bin2Json

section DecodeLemmas

open WearableDock

theorem le32_encodeU32 (x : Nat) (h : x < 2 ^ 32) :
    le32 (x % 256) (x / 256 % 256) (x / 65536 % 256) (x / 16777216 % 256) = x := by
  unfold le32
  omega

theorem le16s_encodeI16 (v : Int) (h1 : -32768 ≤ v) (h2 : v < 32768) :
    le16s ((v % 65536).toNat % 256) ((v % 65536).toNat / 256) = v := by
  have hm : (0 : Int) ≤ v % 65536 := Int.emod_nonneg v (by norm_num)
  have hm2 : v % 65536 < 65536 := Int.emod_lt_of_pos v (by norm_num)
  have he : v % 65536 = v - 65536 * (v / 65536) := by
    rw [Int.emod_def]
  simp only [le16s]
  split <;> omega

end DecodeLemmas

theorem rne_intCast (n : ℤ) : rne ((n : ℤ) : ℚ) = n := by
  simp [rne, Int.floor_intCast]

theorem abs_rne_sub_le_half (m : ℚ) : |((rne m : ℤ) : ℚ) - m| ≤ 1 / 2 := by
  have h1 := Int.floor_le m
  have h2 := Int.lt_floor_add_one m
  rw [abs_le]
  simp only [rne]
  split_ifs <;> constructor <;> push_cast <;> linarith

theorem qlog2Aux_spec :
    ∀ (fuel : Nat) (e : ℤ) (q : ℚ), 0 < q → q < 2 ^ (e + 1) →
      (2 : ℚ) ^ (e - (fuel : ℤ) + 1) ≤ q →
      (2 : ℚ) ^ qlog2Aux fuel e q ≤ q ∧ q < 2 ^ (qlog2Aux fuel e q + 1) := by
  intro fuel
  induction fuel with
  | zero =>
    intro e q hq h2 h3
    exfalso
    norm_num at h3
    exact absurd h2 (not_lt.mpr h3)
  | succ fuel ih =>
    intro e q hq h2 h3
    unfold qlog2Aux
    split_ifs with hle
    · exact ⟨hle, h2⟩
    · apply ih (e - 1) q hq
      · rw [sub_add_cancel]
        exact lt_of_not_le hle
      · have hexp : e - 1 - (fuel : ℤ) + 1 = e - ((fuel + 1 : ℕ) : ℤ) + 1 := by
          push_cast
          ring
        rw [hexp]
        exact h3

theorem qlog2_spec (q : ℚ) (hq : 0 < q) (hlo : (2 : ℚ) ^ (-59 : ℤ) ≤ q)
    (hhi : q < 2 ^ (61 : ℤ)) :
    (2 : ℚ) ^ qlog2 q ≤ q ∧ q < 2 ^ (qlog2 q + 1) := by
  unfold qlog2
  apply qlog2Aux_spec 120 60 q hq
  · exact (by norm_num : ((60 : ℤ) + 1) = 61) ▸ hhi
  · exact (by norm_num : ((60 : ℤ) - (120 : ℕ) + 1) = -59) ▸ hlo

theorem fl32pos_err (q : ℚ) (hq : 0 < q) (hlo : (2 : ℚ) ^ (-59 : ℤ) ≤ q)
    (hhi : q < 2 ^ (61 : ℤ)) :
    |fl32pos q - q| ≤ q / 2 ^ (24 : ℤ) := by
  obtain ⟨h1, h2⟩ := qlog2_spec q hq hlo hhi
  unfold fl32pos
  have hpow : (0 : ℚ) < 2 ^ (qlog2 q - 23) := zpow_pos (by norm_num) _
  have hr := abs_rne_sub_le_half (q / 2 ^ (qlog2 q - 23))
  have hfact : ((rne (q / 2 ^ (qlog2 q - 23)) : ℤ) : ℚ) * 2 ^ (qlog2 q - 23) - q =
      (((rne (q / 2 ^ (qlog2 q - 23)) : ℤ) : ℚ) - q / 2 ^ (qlog2 q - 23)) *
        2 ^ (qlog2 q - 23) := by
    field_simp
  rw [hfact, abs_mul, abs_of_pos hpow]
  have hb : |((rne (q / 2 ^ (qlog2 q - 23)) : ℤ) : ℚ) - q / 2 ^ (qlog2 q - 23)| *
      2 ^ (qlog2 q - 23) ≤ (1 / 2) * 2 ^ (qlog2 q - 23) :=
    mul_le_mul_of_nonneg_right hr (le_of_lt hpow)
  refine le_trans hb ?_
  have hsplit : (1 / 2 : ℚ) * 2 ^ (qlog2 q - 23) = 2 ^ (qlog2 q - 24) := by
    rw [zpow_sub₀ (by norm_num : (2 : ℚ) ≠ 0), zpow_sub₀ (by norm_num : (2 : ℚ) ≠ 0)]
    norm_num
    ring
  rw [hsplit]
  have hq24 : (2 : ℚ) ^ (qlog2 q - 24) = 2 ^ qlog2 q / 2 ^ (24 : ℤ) :=
    zpow_sub₀ (by norm_num) _ _
  rw [hq24]
  exact (div_le_div_iff_of_pos_right (zpow_pos (by norm_num) _)).mpr h1

theorem fl32pos_int (n : ℤ) (h0 : 0 < n) (h24 : n < 2 ^ 24) :
    fl32pos ((n : ℤ) : ℚ) = n := by
  have hq : (0 : ℚ) < (n : ℚ) := by exact_mod_cast h0
  have hone : (1 : ℚ) ≤ (n : ℚ) := by exact_mod_cast h0
  have hlo : (2 : ℚ) ^ (-59 : ℤ) ≤ (n : ℚ) := by
    refine le_trans ?_ hone
    rw [zpow_neg]
    rw [show ((59 : ℤ)) = ((59 : ℕ) : ℤ) by norm_num, zpow_natCast]
    rw [inv_le_one_iff₀]
    right
    norm_num
  have hhi : ((n : ℤ) : ℚ) < 2 ^ (61 : ℤ) := by
    rw [show ((61 : ℤ)) = ((61 : ℕ) : ℤ) by norm_num, zpow_natCast]
    have : (n : ℚ) < ((2 ^ 24 : ℤ) : ℚ) := by exact_mod_cast h24
    refine lt_of_lt_of_le this ?_
    norm_num
  obtain ⟨hs1, hs2⟩ := qlog2_spec _ hq hlo hhi
  have hloge : qlog2 ((n : ℤ) : ℚ) ≤ 23 := by
    by_contra hgt
    push_neg at hgt
    have hmono : (2 : ℚ) ^ (24 : ℤ) ≤ 2 ^ qlog2 ((n : ℤ) : ℚ) := by
      exact zpow_le_zpow_right₀ (by norm_num) (by omega)
    have hml : (2 : ℚ) ^ (24 : ℤ) ≤ (n : ℚ) := le_trans hmono hs1
    rw [show ((24 : ℤ)) = ((24 : ℕ) : ℤ) by norm_num, zpow_natCast] at hml
    have hle : (2 ^ 24 : ℤ) ≤ n := by exact_mod_cast hml
    omega
  obtain ⟨k, hk⟩ : ∃ k : ℕ, qlog2 ((n : ℤ) : ℚ) - 23 = -(k : ℤ) :=
    ⟨(23 - qlog2 ((n : ℤ) : ℚ)).toNat, by omega⟩
  have hm : ((n : ℤ) : ℚ) / 2 ^ (-(k : ℤ)) = ((n * 2 ^ k : ℤ) : ℚ) := by
    rw [zpow_neg, zpow_natCast, div_eq_mul_inv, inv_inv]
    push_cast
    ring
  show ((rne (((n : ℤ) : ℚ) / 2 ^ (qlog2 ((n : ℤ) : ℚ) - 23)) : ℤ) : ℚ) *
      2 ^ (qlog2 ((n : ℤ) : ℚ) - 23) = ((n : ℤ) : ℚ)
  rw [hk, hm, rne_intCast, zpow_neg, zpow_natCast]
  push_cast
  field_simp

theorem fl32_intCast (n : ℤ) (h : |n| < 2 ^ 24) : fl32 ((n : ℤ) : ℚ) = n := by
  have hb := abs_lt.mp h
  rcases lt_trichotomy n 0 with hn | hn | hn
  · have hneg : ((n : ℤ) : ℚ) < 0 := by exact_mod_cast hn
    have hne : ((n : ℤ) : ℚ) ≠ 0 := ne_of_lt hneg
    unfold fl32
    rw [if_neg hne, if_pos hneg]
    have hcast : -((n : ℤ) : ℚ) = ((-n : ℤ) : ℚ) := by push_cast; ring
    rw [hcast, fl32pos_int (-n) (by omega) (by omega)]
    push_cast
    ring
  · subst hn
    simp [fl32]
  · have hpos : (0 : ℚ) < ((n : ℤ) : ℚ) := by exact_mod_cast hn
    unfold fl32
    rw [if_neg (ne_of_gt hpos), if_neg (not_lt.mpr (le_of_lt hpos))]
    exact fl32pos_int n hn (by omega)

theorem round_eq_of_abs_sub_lt_half (x : ℚ) (n : ℤ) (h : |x - n| < 1 / 2) :
    round x = n := by
  rw [round_eq]
  have hd := abs_lt.mp h
  refine Int.floor_eq_iff.mpr ⟨by linarith [hd.1], ?_⟩
  linarith [hd.2]

theorem fl32pos_div100_err (n : ℤ) (h0 : 0 < n) (h23 : n < 2 ^ 23) :
    |fl32pos ((n : ℚ) / 100) * 100 - n| < 1 / 2 := by
  have hq : (0 : ℚ) < (n : ℚ) / 100 := by
    have : (0 : ℚ) < (n : ℚ) := by exact_mod_cast h0
    positivity
  have hone : (1 : ℚ) ≤ (n : ℚ) := by exact_mod_cast h0
  have hlo : (2 : ℚ) ^ (-59 : ℤ) ≤ (n : ℚ) / 100 := by
    have h59 : (2 : ℚ) ^ (-59 : ℤ) = ((2 : ℚ) ^ (59 : ℕ))⁻¹ := by
      rw [zpow_neg, show ((59 : ℤ)) = ((59 : ℕ) : ℤ) by norm_num, zpow_natCast]
    rw [h59]
    have hd : (1 : ℚ) / 100 ≤ (n : ℚ) / 100 :=
      (div_le_div_iff_of_pos_right (by norm_num)).mpr hone
    refine le_trans ?_ hd
    rw [show ((2 : ℚ) ^ (59 : ℕ)) = 576460752303423488 by norm_num]
    norm_num
  have hhi : (n : ℚ) / 100 < 2 ^ (61 : ℤ) := by
    rw [show ((61 : ℤ)) = ((61 : ℕ) : ℤ) by norm_num, zpow_natCast]
    have hn61 : (n : ℚ) < 2 ^ 61 := by
      have : (n : ℚ) < ((2 ^ 23 : ℤ) : ℚ) := by exact_mod_cast h23
      refine lt_of_lt_of_le this ?_
      norm_num
    have : (n : ℚ) / 100 ≤ (n : ℚ) := by
      rw [div_le_iff₀ (by norm_num : (0 : ℚ) < 100)]
      nlinarith
    linarith
  have herr := fl32pos_err ((n : ℚ) / 100) hq hlo hhi
  have h24 : (2 : ℚ) ^ (24 : ℤ) = 16777216 := by
    rw [show ((24 : ℤ)) = ((24 : ℕ) : ℤ) by norm_num, zpow_natCast]
    norm_num
  rw [h24] at herr
  have hkey : |fl32pos ((n : ℚ) / 100) * 100 - n| =
      |fl32pos ((n : ℚ) / 100) - (n : ℚ) / 100| * 100 := by
    rw [← abs_of_pos (by norm_num : (0 : ℚ) < 100), ← abs_mul]
    congr 1
    field_simp
  rw [hkey]
  have hn23 : (n : ℚ) < 8388608 := by
    have : (n : ℚ) < ((2 ^ 23 : ℤ) : ℚ) := by exact_mod_cast h23
    refine lt_of_lt_of_le this ?_
    norm_num
  calc |fl32pos ((n : ℚ) / 100) - (n : ℚ) / 100| * 100
      ≤ ((n : ℚ) / 100 / 16777216) * 100 :=
        mul_le_mul_of_nonneg_right herr (by norm_num)
    _ = (n : ℚ) / 16777216 := by ring
    _ < 1 / 2 := by
        rw [div_lt_iff₀ (by norm_num : (0 : ℚ) < 16777216)]
        linarith

theorem hundredths_pipeline (n : ℤ) (h : |n| < 2 ^ 23) :
    WearableDock.hundredths (fl32 (fl32 ((n : ℤ) : ℚ) / 100)) = n := by
  have hb := abs_lt.mp h
  have h24 : |n| < 2 ^ 24 := lt_trans h (by norm_num)
  rw [fl32_intCast n h24]
  rcases lt_trichotomy n 0 with hn | hn | hn
  · have hqneg : ((n : ℤ) : ℚ) / 100 < 0 := by
      have : ((n : ℤ) : ℚ) < 0 := by exact_mod_cast hn
      exact div_neg_of_neg_of_pos this (by norm_num)
    unfold fl32
    rw [if_neg (ne_of_lt hqneg), if_pos hqneg]
    have hflip : -(((n : ℤ) : ℚ) / 100) = (((-n : ℤ) : ℚ)) / 100 := by
      push_cast
      ring
    rw [hflip]
    have herr := fl32pos_div100_err (-n) (by omega) (by omega)
    unfold WearableDock.hundredths
    apply round_eq_of_abs_sub_lt_half
    have heq : -fl32pos (((-n : ℤ) : ℚ) / 100) * 100 - (n : ℚ) =
        -(fl32pos (((-n : ℤ) : ℚ) / 100) * 100 - ((-n : ℤ) : ℚ)) := by
      push_cast
      ring
    rw [heq, abs_neg]
    exact herr
  · subst hn
    simp [fl32, WearableDock.hundredths]
  · have hqpos : (0 : ℚ) < ((n : ℤ) : ℚ) / 100 := by
      have : (0 : ℚ) < ((n : ℤ) : ℚ) := by exact_mod_cast hn
      positivity
    unfold fl32
    rw [if_neg (ne_of_gt hqpos), if_neg (not_lt.mpr (le_of_lt hqpos))]
    have herr := fl32pos_div100_err n hn hb.2
    unfold WearableDock.hundredths
    exact round_eq_of_abs_sub_lt_half _ _ herr

set_option maxRecDepth 40000 in
unseal Rat.mul Rat.inv Rat.add Rat.sub in
/-- Claim C2, counterexample.  The claim asserts two-decimal exactness of
`p / 100.0f` for every unsigned 32-bit pressure `p`, but the division is
performed in single precision (24-bit significand): already at
`p = 16777217` (= 2²⁴ + 1) the conversion of `p` to `float` rounds to
16777216 and the quotient rounds to 167772.15625, so the record prints
`167772.16` instead of the claimed `167772.17`. -/
theorem C2_counterexample :
    WearableDock.hundredths (WearableDock.press32 16777217) = 16777216 ∧
    (16777216 : ℤ) ≠ (16777217 : ℤ) ∧
    (WearableDock.decode_record
        (WearableDock.encodeRecord 0 16777217 0 0 0 0 0 0)).map
      (fun r => WearableDock.hundredths r.pressure_pa) = some 16777216 := by
  refine ⟨by decide, by decide, by decide⟩

/-- Claim C2, amended.  Decoding routes every value through single
precision: a raw channel sample `v` becomes the `binary32` value
`fl(fl(v)/100)` and the pressure `p` becomes `fl(fl(p)/100)`; the unsigned
32-bit timestamp is emitted unchanged.  For the six signed 16-bit channels
this is still exact to two-decimal rounding (|v| ≤ 32768 keeps the float
error below half a hundredth, so raw 250 prints 2.50 and raw −100 prints
−1.00), and the pressure is exact to two decimals for `p < 2²³` — but not
in general (see the counterexample at `p = 2²⁴ + 1`). -/
theorem C2_decode_scaling
    (ts p : Nat) (hts : ts < 2 ^ 32) (hp : p < 2 ^ 32)
    (v0 v1 v2 v3 v4 v5 : Int)
    (h0 : -32768 ≤ v0 ∧ v0 < 32768) (h1 : -32768 ≤ v1 ∧ v1 < 32768)
    (h2 : -32768 ≤ v2 ∧ v2 < 32768) (h3 : -32768 ≤ v3 ∧ v3 < 32768)
    (h4 : -32768 ≤ v4 ∧ v4 < 32768) (h5 : -32768 ≤ v5 ∧ v5 < 32768) :
    WearableDock.decode_record
        (WearableDock.encodeRecord ts p v0 v1 v2 v3 v4 v5) =
      some { timestamp_ms := ts
             pressure_pa := WearableDock.press32 p
             acc := (WearableDock.chan32 v0, WearableDock.chan32 v1,
                     WearableDock.chan32 v2)
             gyr := (WearableDock.chan32 v3, WearableDock.chan32 v4,
                     WearableDock.chan32 v5) } ∧
    Bin2Json.decode_short (Bin2Json.encodeShort ts v0 v1 v2 v3 v4 v5) =
      some { timestamp_ms := ts
             acc := (Bin2Json.chan32s v0, Bin2Json.chan32s v1,
                     Bin2Json.chan32s v2)
             gyr := (Bin2Json.chan32s v3, Bin2Json.chan32s v4,
                     Bin2Json.chan32s v5) } ∧
    (∀ v : ℤ, -32768 ≤ v → v < 32768 →
      WearableDock.hundredths (WearableDock.chan32 v) = v) ∧
    (∀ v : ℤ, -32768 ≤ v → v < 32768 →
      WearableDock.hundredths (Bin2Json.chan32s v) = v) ∧
    (p < 2 ^ 23 → WearableDock.hundredths (WearableDock.press32 p) = p) := by
  have e0 := le16s_encodeI16 v0 h0.1 h0.2
  have e1 := le16s_encodeI16 v1 h1.1 h1.2
  have e2 := le16s_encodeI16 v2 h2.1 h2.2
  have e3 := le16s_encodeI16 v3 h3.1 h3.2
  have e4 := le16s_encodeI16 v4 h4.1 h4.2
  have e5 := le16s_encodeI16 v5 h5.1 h5.2
  have ets := le32_encodeU32 ts hts
  have ep := le32_encodeU32 p hp
  refine ⟨?_, ?_, ?_, ?_, ?_⟩
  · simp only [WearableDock.encodeRecord, WearableDock.encodeU32,
      WearableDock.encodeI16, List.cons_append, List.nil_append,
      WearableDock.decode_record]
    rw [ets, ep, e0, e1, e2, e3, e4, e5]
  · simp only [Bin2Json.encodeShort, WearableDock.encodeU32,
      WearableDock.encodeI16, List.cons_append, List.nil_append,
      Bin2Json.decode_short]
    rw [ets, e0, e1, e2, e3, e4, e5]
  · intro v hv1 hv2
    simp only [WearableDock.chan32, WearableDock.IMU_SCALE]
    exact hundredths_pipeline v (by rw [abs_lt]; omega)
  · intro v hv1 hv2
    simp only [Bin2Json.chan32s, Bin2Json.SCALE_FACTOR]
    exact hundredths_pipeline v (by rw [abs_lt]; omega)
  · intro hp23
    simp only [WearableDock.press32]
    have hcast : ((p : ℕ) : ℚ) = (((p : ℤ) : ℤ) : ℚ) := by push_cast; ring
    rw [hcast]
    have := hundredths_pipeline (p : ℤ) (by rw [abs_lt]; constructor <;> omega)
    exact (by exact_mod_cast this)

set_option maxRecDepth 40000 in
unseal Rat.mul Rat.inv Rat.add Rat.sub in
/-- Witness for C2 at the spec's own examples: raw channel 250 decodes to
exactly 2.50 and raw −100 to exactly −1.00 (both dyadic, so the float is
exact), pressure 250 to 2.50, with a concrete full-record decode. -/
theorem C2_decode_scaling_witness :
    WearableDock.hundredths (WearableDock.chan32 250) = 250 ∧
    WearableDock.hundredths (WearableDock.chan32 (-100)) = -100 ∧
    WearableDock.chan32 250 = 5 / 2 ∧
    WearableDock.chan32 (-100) = -1 ∧
    WearableDock.hundredths (WearableDock.press32 250) = 250 ∧
    WearableDock.decode_record
        (WearableDock.encodeRecord 1000 250 250 (-100) 0 0 0 0) =
      some { timestamp_ms := 1000
             pressure_pa := WearableDock.press32 250
             acc := (WearableDock.chan32 250, WearableDock.chan32 (-100),
                     WearableDock.chan32 0)
             gyr := (WearableDock.chan32 0, WearableDock.chan32 0,
                     WearableDock.chan32 0) } := by
  have h := C2_decode_scaling 1000 250 (by norm_num) (by norm_num)
    250 (-100) 0 0 0 0
    (by norm_num) (by norm_num) (by norm_num)
    (by norm_num) (by norm_num) (by norm_num)
  refine ⟨h.2.2.1 250 (by norm_num) (by norm_num),
    h.2.2.1 (-100) (by norm_num) (by norm_num), by decide, by decide,
    h.2.2.2.2 (by norm_num), h.1⟩

/-- Claim C1. At most one device visit runs at a time and a new matching add
event starts a visit only from the Idle state: (i) in `dfu_and_extract.c`'s
loop a visit runs in an iteration only when the post-tick state is idle and
the event is a matching add; (ii) while a removal is being debounced
(quiescence window not yet elapsed), no event — in particular no duplicate
matching add — starts a visit; (iii) in `wearable_dock.c`'s loop a matching
add consumed while the loop waits for the removal of the current device
starts no visit: the run is as if the event had not occurred. -/
theorem C1_visit_only_from_idle
    (s : DfuExtract.DfuState) (now : Nat) (ev : Option DfuExtract.UEvent) :
    ((DfuExtract.dfuStep s now ev).2 = true →
      (DfuExtract.tickState s now).debouncing = false ∧
      ∃ e, ev = some e ∧ DfuExtract.isMatchingAdd e = true) ∧
    (∀ e, s.debouncing = true → DfuExtract.quiesceExpired s now = false →
      (DfuExtract.dfuStep s now (some e)).2 = false) ∧
    (∀ (e : WearableDock.WEvent) (evs : List WearableDock.WEvent)
        (os : List WearableDock.StageOracle),
      WearableDock.matchesTarget "add" e = true →
      WearableDock.dockRun true (e :: evs) os = WearableDock.dockRun true evs os) := by
  refine ⟨?_, ?_, ?_⟩
  · intro hv
    match ev with
    | none => simp [DfuExtract.dfuStep] at hv
    | some e =>
      simp only [DfuExtract.dfuStep] at hv
      by_cases hg : (!(DfuExtract.tickState s now).debouncing &&
          DfuExtract.isMatchingAdd e) = true
      · simp only [Bool.and_eq_true, Bool.not_eq_true'] at hg
        exact ⟨hg.1, e, rfl, hg.2⟩
      · exfalso
        rw [if_neg hg] at hv
        split at hv <;> simp at hv
  · intro e hdeb hq
    have ht : DfuExtract.tickState s now = s := by
      simp [DfuExtract.tickState, hq]
    simp only [DfuExtract.dfuStep, ht, hdeb, Bool.not_true, Bool.false_and,
      Bool.false_eq_true, if_false]
    split <;> rfl
  · intro e evs os hadd
    have hna : WearableDock.matchesTarget "remove" e = false := by
      simp only [WearableDock.matchesTarget, Bool.and_eq_true,
        decide_eq_true_eq] at hadd ⊢
      simp [hadd.1.1.1]
    simp [WearableDock.dockRun, hna]

/-- Witness for C1: a duplicate matching add consumed while debouncing
(state `⟨true, "usb-1", 0⟩`, quiescence not elapsed) starts no visit; a
matching add from idle does start one; a matching add seen while
`wearable_dock.c` waits for removal is consumed without effect. -/
theorem C1_visit_only_from_idle_witness :
    (DfuExtract.dfuStep ⟨true, "usb-1", 0⟩ 100
      (some ⟨some "add", some "0001", some "0001", "usb-1"⟩)).2 = false ∧
    (DfuExtract.tickState DfuExtract.initState 0).debouncing = false ∧
    (DfuExtract.dfuStep DfuExtract.initState 0
      (some ⟨some "add", some "0001", some "0001", "usb-1"⟩)).2 = true ∧
    WearableDock.dockRun true
        [⟨some "add", some "block", some "disk", some "0001", some "0001",
          some "/dev/sda"⟩] [] =
      WearableDock.dockRun true [] [] := by
  have h1 := (C1_visit_only_from_idle ⟨true, "usb-1", 0⟩ 100
    (some ⟨some "add", some "0001", some "0001", "usb-1"⟩)).2.1
    ⟨some "add", some "0001", some "0001", "usb-1"⟩ rfl (by decide)
  have h3 := (C1_visit_only_from_idle DfuExtract.initState 0
    (some ⟨some "add", some "0001", some "0001", "usb-1"⟩)).1
  have h4 := (C1_visit_only_from_idle DfuExtract.initState 0 none).2.2
    ⟨some "add", some "block", some "disk", some "0001", some "0001",
      some "/dev/sda"⟩ [] [] (by decide)
  exact ⟨h1, by decide, by decide, h4⟩


/-- Claim C3, counterexample. The claim says a matching add event arriving
during the quiescence window prevents (or restarts) the return to Idle.
On the code it does neither: with the visit at t=0, the matching remove at
t=100 and a duplicate matching add at t=200 (inside the ≈500 ms window),
the t=700 tick still returns the machine to Idle exactly as if the add had
never arrived — the add branch requires `!debouncing` and the remove branch
requires `action == "remove"`, so the add is ignored. -/
theorem C3_counterexample :
    DfuExtract.isMatchingAdd ⟨some "add", some "0001", some "0001", "usb-1"⟩ = true ∧
    DfuExtract.dfuTrace DfuExtract.initState
        [(0, some ⟨some "add", some "0001", some "0001", "usb-1"⟩),
         (100, some ⟨some "remove", none, none, "usb-1"⟩),
         (200, some ⟨some "add", some "0001", some "0001", "usb-1"⟩),
         (700, none)] =
      [(⟨true, "usb-1", 0⟩, true),
       (⟨true, "usb-1", 100⟩, false),
       (⟨true, "usb-1", 100⟩, false),
       (DfuExtract.initState, false)] ∧
    (DfuExtract.dfuFinal DfuExtract.initState
        [(0, some ⟨some "add", some "0001", some "0001", "usb-1"⟩),
         (100, some ⟨some "remove", none, none, "usb-1"⟩),
         (200, some ⟨some "add", some "0001", some "0001", "usb-1"⟩),
         (700, none)]).debouncing = false := by
  refine ⟨by decide, by decide, by decide⟩

/-- Claim C3, amended. After a device visit completes, the orchestrator
returns to Idle only when a remove event matching the recorded bus path has
been observed and the ≈500 ms quiescence window then elapses with no
further matching *remove* event; matching add events arriving during the
window are ignored entirely — they neither prevent nor restart the return
to Idle.  (a) leaving Debouncing requires an armed, expired timer;
(b) the timer is armed, at the poll time, only by a matching remove;
(c) a further matching remove restarts the timer; (d) a matching add during
the window leaves state and visit count unchanged. -/
theorem C3_return_to_idle
    (s : DfuExtract.DfuState) (now : Nat) (ev : Option DfuExtract.UEvent) :
    (s.debouncing = true → (DfuExtract.dfuStep s now ev).1.debouncing = false →
      0 < s.remove_seen_at_ms ∧ 500 < now - s.remove_seen_at_ms) ∧
    (∀ e, s.remove_seen_at_ms = 0 →
      0 < (DfuExtract.dfuStep s now (some e)).1.remove_seen_at_ms →
      DfuExtract.isMatchingRemove (DfuExtract.tickState s now) e = true ∧
      (DfuExtract.dfuStep s now (some e)).1.remove_seen_at_ms = now) ∧
    (∀ e, s.debouncing = true → DfuExtract.quiesceExpired s now = false →
      DfuExtract.isMatchingRemove s e = true →
      (DfuExtract.dfuStep s now (some e)).1 = ⟨true, s.current_usb_path, now⟩) ∧
    (∀ e, s.debouncing = true → DfuExtract.quiesceExpired s now = false →
      DfuExtract.isMatchingAdd e = true →
      DfuExtract.dfuStep s now (some e) = (s, false)) := by
  refine ⟨?_, ?_, ?_, ?_⟩
  · intro hdeb hidle
    by_cases hq : DfuExtract.quiesceExpired s now = true
    · simp only [DfuExtract.quiesceExpired, hdeb, Bool.true_and,
        Bool.and_eq_true, decide_eq_true_eq] at hq
      exact hq
    · exfalso
      have ht : DfuExtract.tickState s now = s := by
        unfold DfuExtract.tickState
        exact if_neg hq
      simp only [DfuExtract.dfuStep, ht] at hidle
      match ev with
      | none => rw [hdeb] at hidle; simp at hidle
      | some e =>
        simp only [hdeb, Bool.not_true, Bool.false_and, Bool.false_eq_true,
          if_false] at hidle
        split at hidle <;> simp_all
  · intro e h0 hpos
    simp only [DfuExtract.dfuStep] at hpos ⊢
    by_cases hg : (!(DfuExtract.tickState s now).debouncing &&
        DfuExtract.isMatchingAdd e) = true
    · rw [if_pos hg] at hpos; simp at hpos
    · rw [if_neg hg] at hpos ⊢
      by_cases hr : ((DfuExtract.tickState s now).debouncing &&
          DfuExtract.isMatchingRemove (DfuExtract.tickState s now) e) = true
      · rw [if_pos hr] at hpos ⊢
        exact ⟨(Bool.and_eq_true _ _ |>.mp hr).2, rfl⟩
      · exfalso
        rw [if_neg hr] at hpos
        have hpos' : 0 < (DfuExtract.tickState s now).remove_seen_at_ms := hpos
        have ht : (DfuExtract.tickState s now).remove_seen_at_ms = 0 := by
          simp only [DfuExtract.tickState]
          split
          · rfl
          · exact h0
        omega
  · intro e hdeb hq hrem
    have ht : DfuExtract.tickState s now = s := by
      simp [DfuExtract.tickState, hq]
    simp [DfuExtract.dfuStep, ht, hdeb, hrem,
      DfuExtract.isMatchingAdd, DfuExtract.isMatchingRemove] at hrem ⊢
    simp_all
  · intro e hdeb hq hadd
    have ht : DfuExtract.tickState s now = s := by
      simp [DfuExtract.tickState, hq]
    have hnr : DfuExtract.isMatchingRemove s e = false := by
      simp only [DfuExtract.isMatchingAdd, Bool.and_eq_true,
        decide_eq_true_eq] at hadd
      simp [DfuExtract.isMatchingRemove, hadd.1.1]
    simp [DfuExtract.dfuStep, ht, hdeb, hnr]

/-- Witness for C3 (amended): the t=700 tick leaves Debouncing with the
timer armed at 100 and expired; the matching remove at t=100 arms the
timer; a further matching remove at t=300 restarts it; a matching add at
t=200 changes nothing. -/
theorem C3_return_to_idle_witness :
    (0 < 100 ∧ 500 < 700 - 100) ∧
    (DfuExtract.isMatchingRemove
        (DfuExtract.tickState ⟨true, "usb-1", 0⟩ 100)
        ⟨some "remove", none, none, "usb-1"⟩ = true ∧
      (DfuExtract.dfuStep ⟨true, "usb-1", 0⟩ 100
        (some ⟨some "remove", none, none, "usb-1"⟩)).1.remove_seen_at_ms = 100) ∧
    (DfuExtract.dfuStep ⟨true, "usb-1", 100⟩ 300
        (some ⟨some "remove", none, none, "usb-1"⟩)).1 = ⟨true, "usb-1", 300⟩ ∧
    DfuExtract.dfuStep ⟨true, "usb-1", 100⟩ 200
        (some ⟨some "add", some "0001", some "0001", "usb-1"⟩) =
      (⟨true, "usb-1", 100⟩, false) := by
  have h1 := (C3_return_to_idle ⟨true, "usb-1", 100⟩ 700 none).1 rfl (by decide)
  have h2 := (C3_return_to_idle ⟨true, "usb-1", 0⟩ 100
    (some ⟨some "remove", none, none, "usb-1"⟩)).2.1
    ⟨some "remove", none, none, "usb-1"⟩ rfl (by decide)
  have h3 := (C3_return_to_idle ⟨true, "usb-1", 100⟩ 300
    (some ⟨some "remove", none, none, "usb-1"⟩)).2.2.1
    ⟨some "remove", none, none, "usb-1"⟩ rfl (by decide) (by decide)
  have h4 := (C3_return_to_idle ⟨true, "usb-1", 100⟩ 200
    (some ⟨some "add", some "0001", some "0001", "usb-1"⟩)).2.2.2
    ⟨some "add", some "0001", some "0001", "usb-1"⟩ rfl (by decide) (by decide)
  exact ⟨h1, h2, h3, h4⟩

/-- Claim C4. A stage failure inside a device visit aborts only that visit:
(i) in `wearable_dock.c`, the number of visits the loop performs on a given
event stream is the same whatever outcomes the visits' stages report — the
loop always returns to waiting for the next hotplug event; (ii) in
`dfu_and_extract.c`, the loop's state transition and whether a visit ran
are independent of the visit's environment outcomes; (iii) the
`dfu_and_extract.c` loop processes every polled input of a trace and is
still running afterwards — it never terminates the process (its only exits
are the shutdown flag and the fatal `udev_new` failure at startup, both
outside the per-iteration step). -/
theorem C4_failure_aborts_only_visit :
    (∀ (phase : Bool) (evs : List WearableDock.WEvent)
        (os os' : List WearableDock.StageOracle),
      (WearableDock.dockRun phase evs os).length =
        (WearableDock.dockRun phase evs os').length) ∧
    (∀ (s : DfuExtract.DfuState) (now : Nat) (ev : Option DfuExtract.UEvent)
        (o : DfuExtract.DfuVisitOracle),
      (DfuExtract.dfuStepFull s now ev o).1 = (DfuExtract.dfuStep s now ev).1 ∧
      (DfuExtract.dfuStepFull s now ev o).2.isSome =
        (DfuExtract.dfuStep s now ev).2) ∧
    (∀ (s : DfuExtract.DfuState) (tr : List (Nat × Option DfuExtract.UEvent)),
      (DfuExtract.dfuTrace s tr).length = tr.length) := by
  refine ⟨?_, ?_, ?_⟩
  · intro phase evs
    induction evs generalizing phase with
    | nil => intro os os'; cases phase <;> rfl
    | cons e rest ih =>
      intro os os'
      cases phase
      · by_cases hm : WearableDock.matchesTarget "add" e = true
        · simp only [WearableDock.dockRun, hm, if_true, List.length_cons,
            Nat.add_left_inj]
          exact ih true os.tail os'.tail
        · simp only [WearableDock.dockRun, hm, if_false]
          exact ih false os os'
      · by_cases hm : WearableDock.matchesTarget "remove" e = true
        · simp only [WearableDock.dockRun, hm, if_true]
          exact ih false os os'
        · simp only [WearableDock.dockRun, hm, if_false]
          exact ih true os os'
  · intro s now ev o
    cases ev with
    | none => exact ⟨rfl, rfl⟩
    | some e =>
      by_cases h1 : (!(DfuExtract.tickState s now).debouncing &&
          DfuExtract.isMatchingAdd e) = true
      · constructor <;>
          simp [DfuExtract.dfuStepFull, DfuExtract.dfuStep, h1]
      · by_cases h2 : ((DfuExtract.tickState s now).debouncing &&
            DfuExtract.isMatchingRemove (DfuExtract.tickState s now) e) = true
        · constructor <;>
            simp [DfuExtract.dfuStepFull, DfuExtract.dfuStep, h1, h2]
        · constructor <;>
            simp [DfuExtract.dfuStepFull, DfuExtract.dfuStep, h1, h2]
  · intro s tr
    induction tr generalizing s with
    | nil => rfl
    | cons p rest ih => simp [DfuExtract.dfuTrace, ih]

/-- Witness for C4: an all-failure visit environment and an all-default one
give the same single-visit run on a one-add stream; a concrete failing
visit leaves the dfu loop's transition unchanged; a two-entry trace yields
two loop iterations. -/
theorem C4_failure_aborts_only_visit_witness :
    (WearableDock.dockRun false
        [⟨some "add", some "block", some "disk", some "0001", some "0001",
          some "/dev/sda"⟩] [default]).length =
      (WearableDock.dockRun false
        [⟨some "add", some "block", some "disk", some "0001", some "0001",
          some "/dev/sda"⟩] []).length ∧
    (DfuExtract.dfuStepFull DfuExtract.initState 0
        (some ⟨some "add", some "0001", some "0001", "usb-1"⟩) default).1 =
      (DfuExtract.dfuStep DfuExtract.initState 0
        (some ⟨some "add", some "0001", some "0001", "usb-1"⟩)).1 ∧
    (DfuExtract.dfuTrace DfuExtract.initState
        [(0, some ⟨some "add", some "0001", some "0001", "usb-1"⟩),
         (700, none)]).length = 2 := by
  refine ⟨C4_failure_aborts_only_visit.1 false _ [default] [],
    (C4_failure_aborts_only_visit.2.1 DfuExtract.initState 0
      (some ⟨some "add", some "0001", some "0001", "usb-1"⟩) default).1,
    C4_failure_aborts_only_visit.2.2 DfuExtract.initState _⟩

/-- Claim C5, counterexample.  The claim says that whenever every invoked
flash step exits 0 the image no longer resides in the watched directory.
But `perform_dfu` ignores the return value of the fallback `unlink`: when
the archive `rename` fails and the `unlink` also fails (e.g. the watched
directory has become unwritable, so both report `EACCES`), the function
still returns 0 (success) with the image left in the watched directory —
the reflash-loop hazard the spec forbids. -/
theorem C5_counterexample :
    (DfuExtract.perform_dfu 0 0 false false "20250101_000000".data).1 = 0 ∧
    (DfuExtract.perform_dfu 0 0 false false "20250101_000000".data).2 =
      DfuExtract.ImageDisposition.inWatchedDir ∧
    "fw_v2.bin".data ∈ DfuExtract.applyDisposition ["fw_v2.bin".data]
      "fw_v2.bin".data
      (DfuExtract.perform_dfu 0 0 false false "20250101_000000".data).2 := by
  refine ⟨rfl, rfl, by decide⟩

/-- Claim C5, amended.  Whenever every invoked firmware-flash step exits
with status zero, `perform_dfu` reports success (returns 0) and attempts to
remove the candidate image from the watched directory: it is `rename`d to
the wall-clock-timestamped archive path, or, if that rename fails, an
`unlink` is attempted; whenever either removal succeeds the image's entry
is gone from the watched directory.  But the `unlink` result is ignored,
so if both the rename and the fallback unlink fail the image remains in
the watched directory while the flash still counts as successful. -/
theorem C5_flash_success_removes_image
    (detachExit downloadExit : Int) (renameOk unlinkOk : Bool) (stamp : CStr)
    (hd : detachExit = 0) (hw : downloadExit = 0) :
    (DfuExtract.perform_dfu detachExit downloadExit renameOk unlinkOk
      stamp).1 = 0 ∧
    (renameOk = true →
      (DfuExtract.perform_dfu detachExit downloadExit renameOk unlinkOk
        stamp).2 =
        .archivedAt (DfuExtract.FW_ARCHIVE ++ '/' :: (stamp ++ ".bin".data))) ∧
    (renameOk = false → unlinkOk = true →
      (DfuExtract.perform_dfu detachExit downloadExit renameOk unlinkOk
        stamp).2 = .unlinked) ∧
    (renameOk = false → unlinkOk = false →
      (DfuExtract.perform_dfu detachExit downloadExit renameOk unlinkOk
        stamp).2 = .inWatchedDir) ∧
    ((renameOk || unlinkOk) = true →
      ∀ (watched : List CStr) (binName : CStr),
        binName ∉ DfuExtract.applyDisposition watched binName
          (DfuExtract.perform_dfu detachExit downloadExit renameOk unlinkOk
            stamp).2) := by
  subst hd hw
  cases renameOk with
  | true =>
    refine ⟨rfl, fun _ => rfl, fun h _ => absurd h (by simp), fun h _ => absurd h (by simp), ?_⟩
    intro _ watched binName
    simp [DfuExtract.perform_dfu, DfuExtract.applyDisposition]
  | false =>
    cases unlinkOk with
    | true =>
      refine ⟨rfl, fun h => absurd h (by simp), fun _ _ => rfl, fun _ h => absurd h (by simp), ?_⟩
      intro _ watched binName
      simp [DfuExtract.perform_dfu, DfuExtract.applyDisposition]
    | false =>
      refine ⟨rfl, fun h => absurd h (by simp), fun _ h => absurd h (by simp), fun _ _ => rfl, ?_⟩
      intro h
      simp at h

/-- Witness for C5 (amended): both steps exit 0; with the rename
succeeding the image is archived under the timestamped name, with only the
unlink succeeding it is unlinked, and in both cases the image is gone from
a concrete watched-directory listing. -/
theorem C5_flash_success_removes_image_witness :
    (DfuExtract.perform_dfu 0 0 true true "20250101_000000".data).1 = 0 ∧
    (DfuExtract.perform_dfu 0 0 true true "20250101_000000".data).2 =
      .archivedAt (DfuExtract.FW_ARCHIVE ++ '/' ::
        ("20250101_000000".data ++ ".bin".data)) ∧
    (DfuExtract.perform_dfu 0 0 false true "20250101_000000".data).2 =
      .unlinked ∧
    "fw_v2.bin".data ∉ DfuExtract.applyDisposition
      ["fw_v2.bin".data, "archive".data] "fw_v2.bin".data
      (DfuExtract.perform_dfu 0 0 true true "20250101_000000".data).2 ∧
    "fw_v2.bin".data ∉ DfuExtract.applyDisposition
      ["fw_v2.bin".data, "archive".data] "fw_v2.bin".data
      (DfuExtract.perform_dfu 0 0 false true "20250101_000000".data).2 := by
  have h1 := C5_flash_success_removes_image 0 0 true true
    "20250101_000000".data rfl rfl
  have h2 := C5_flash_success_removes_image 0 0 false true
    "20250101_000000".data rfl rfl
  exact ⟨h1.1, h1.2.1 rfl, h2.2.2.1 rfl rfl,
    h1.2.2.2.2 rfl ["fw_v2.bin".data, "archive".data] "fw_v2.bin".data,
    h2.2.2.2.2 rfl ["fw_v2.bin".data, "archive".data] "fw_v2.bin".data⟩

/-- Claim C6, code bug.  `handle_device`'s wait loop runs
`int tries = 50; while (tries-- > 0) { if (marker) break; usleep(100ms); }`
and then treats `tries <= 0` as a timeout.  When the marker directory is
first observed at the 50th poll (index 49, ≈4.9 s, inside the ≈5 s
window), the loop breaks with `tries == 0`, so the code takes the timeout
branch anyway: it prints "Timed out", unmounts and returns — no session
directory is created, extraction never runs and the Archiver never runs —
although the marker *was* observed by one of the bounded polls.  The claim
(and the code's own "Timed out" diagnostic) says such a visit proceeds.
For contrast, a marker observed one poll earlier (index 48) proceeds, and
a marker never observed within the 50 polls aborts as specified. -/
theorem C6_marker_on_last_poll_misclassified :
    ((fun k => k == 49) 49 = true ∧ 49 < 50) ∧
    WearableDock.pollTries (fun k => k == 49) = 0 ∧
    WearableDock.handle_device
        { mountOk := true, present := fun k => k == 49, mkSessionOk := true
          stamp := "20250101_000000".data, entries := []
          copyOk := fun _ => true, unlinkOk := fun _ => true
          openLogsOk := true, convertOk := true, archiveRenameOk := true } =
      WearableDock.abortAfterMount false ∧
    (WearableDock.pollTries (fun k => k == 48) = 1 ∧
      (WearableDock.handle_device
          { mountOk := true, present := fun k => k == 48, mkSessionOk := true
            stamp := "20250101_000000".data, entries := []
            copyOk := fun _ => true, unlinkOk := fun _ => true
            openLogsOk := true, convertOk := true,
            archiveRenameOk := true }).sessionCreated = true) ∧
    (WearableDock.pollTries (fun _ => false) = -1 ∧
      WearableDock.handle_device
          { mountOk := true, present := fun _ => false, mkSessionOk := true
            stamp := "20250101_000000".data, entries := []
            copyOk := fun _ => true, unlinkOk := fun _ => true
            openLogsOk := true, convertOk := true, archiveRenameOk := true } =
        WearableDock.abortAfterMount false) := by
  refine ⟨⟨rfl, by decide⟩, by decide, rfl, ⟨by decide, rfl⟩, ⟨by decide, rfl⟩⟩

theorem copy_logs_attempted_eq (src dest : CStr) (copyOk unlinkOk : CStr → Bool) :
    ∀ entries : List CStr,
      (WearableDock.copy_and_delete_logs src dest entries copyOk unlinkOk).attempted =
        entries.filter (WearableDock.eligibleEntry src dest) := by
  intro entries
  induction entries with
  | nil => rfl
  | cons n rest ih =>
    simp only [WearableDock.copy_and_delete_logs]
    by_cases hb : WearableDock.isBinEntry n = false
    · rw [if_pos hb]
      have he : WearableDock.eligibleEntry src dest n = false := by
        simp [WearableDock.eligibleEntry, hb]
      simp [List.filter, he, ih]
    · rw [if_neg hb]
      by_cases hj : ((WearableDock.join_path src n PATH_MAX).isNone ||
          (WearableDock.join_path dest n PATH_MAX).isNone) = true
      · rw [if_pos hj]
        have he : WearableDock.eligibleEntry src dest n = false := by
          simp only [Bool.or_eq_true] at hj
          rcases hj with hj | hj <;>
            simp [WearableDock.eligibleEntry, hj]
        simp [List.filter, he, ih]
      · have he : WearableDock.eligibleEntry src dest n = true := by
          simp only [Bool.or_eq_true, not_or] at hj
          simp only [WearableDock.eligibleEntry, Bool.and_eq_true,
            Bool.not_eq_true']
          refine ⟨⟨by simpa using hb, ?_⟩, ?_⟩
          · exact Bool.not_eq_true _ |>.mp hj.1
          · exact Bool.not_eq_true _ |>.mp hj.2
        rw [if_neg hj]
        by_cases hc : copyOk n = true
        · rw [if_pos hc]
          simp [List.filter, he, ih]
        · rw [if_neg hc]
          simp [List.filter, he, ih]

theorem copy_logs_deleted_sub (src dest : CStr) (copyOk unlinkOk : CStr → Bool) :
    ∀ (entries : List CStr) (f : CStr),
      f ∈ (WearableDock.copy_and_delete_logs src dest entries copyOk unlinkOk).deleted →
      f ∈ (WearableDock.copy_and_delete_logs src dest entries copyOk unlinkOk).copied ∧
        copyOk f = true := by
  intro entries
  induction entries with
  | nil => intro f hf; simp [WearableDock.copy_and_delete_logs] at hf
  | cons n rest ih =>
    intro f hf
    simp only [WearableDock.copy_and_delete_logs] at hf ⊢
    by_cases hb : WearableDock.isBinEntry n = false
    · rw [if_pos hb] at hf ⊢; exact ih f hf
    · rw [if_neg hb] at hf ⊢
      by_cases hj : ((WearableDock.join_path src n PATH_MAX).isNone ||
          (WearableDock.join_path dest n PATH_MAX).isNone) = true
      · rw [if_pos hj] at hf ⊢; exact ih f hf
      · rw [if_neg hj] at hf ⊢
        by_cases hc : copyOk n = true
        · rw [if_pos hc] at hf ⊢
          simp only at hf ⊢
          by_cases hu : unlinkOk n = true
          · rw [if_pos hu] at hf
            rcases List.mem_cons.mp hf with hfe | hfr
            · subst hfe; exact ⟨List.mem_cons_self _ _, hc⟩
            · exact ⟨List.mem_cons_of_mem _ (ih f hfr).1, (ih f hfr).2⟩
          · rw [if_neg hu] at hf
            exact ⟨List.mem_cons_of_mem _ (ih f hf).1, (ih f hf).2⟩
        · rw [if_neg hc] at hf ⊢
          simp only at hf ⊢
          exact ih f hf

theorem copy_logs_copied_mem (src dest : CStr) (copyOk unlinkOk : CStr → Bool) :
    ∀ (entries : List CStr) (f : CStr), f ∈ entries →
      WearableDock.eligibleEntry src dest f = true → copyOk f = true →
      f ∈ (WearableDock.copy_and_delete_logs src dest entries copyOk unlinkOk).copied := by
  intro entries
  induction entries with
  | nil => intro f hf; simp at hf
  | cons n rest ih =>
    intro f hf hel hc
    simp only [WearableDock.copy_and_delete_logs]
    rcases List.mem_cons.mp hf with hfe | hfr
    · subst hfe
      have hb : ¬ WearableDock.isBinEntry f = false := by
        simp only [WearableDock.eligibleEntry, Bool.and_eq_true] at hel
        simp [hel.1.1]
      have hj : ¬ ((WearableDock.join_path src f PATH_MAX).isNone ||
          (WearableDock.join_path dest f PATH_MAX).isNone) = true := by
        simp only [WearableDock.eligibleEntry, Bool.and_eq_true,
          Bool.not_eq_true'] at hel
        simp [hel.1.2, hel.2]
      rw [if_neg hb, if_neg hj, if_pos hc]
      exact List.mem_cons_self _ _
    · have hrest := ih f hfr hel hc
      by_cases hb : WearableDock.isBinEntry n = false
      · rw [if_pos hb]; exact hrest
      · rw [if_neg hb]
        by_cases hj : ((WearableDock.join_path src n PATH_MAX).isNone ||
            (WearableDock.join_path dest n PATH_MAX).isNone) = true
        · rw [if_pos hj]; exact hrest
        · rw [if_neg hj]
          by_cases hcn : copyOk n = true
          · rw [if_pos hcn]; exact List.mem_cons_of_mem _ hrest
          · rw [if_neg hcn]; exact hrest

theorem copy_logs_copyFail_not_mem (src dest : CStr) (copyOk unlinkOk : CStr → Bool) :
    ∀ (entries : List CStr) (f : CStr), copyOk f = false →
      f ∉ (WearableDock.copy_and_delete_logs src dest entries copyOk unlinkOk).copied ∧
      f ∉ (WearableDock.copy_and_delete_logs src dest entries copyOk unlinkOk).deleted := by
  intro entries
  induction entries with
  | nil =>
    intro f hf
    simp [WearableDock.copy_and_delete_logs]
  | cons n rest ih =>
    intro f hf
    simp only [WearableDock.copy_and_delete_logs]
    have hfn : f ≠ n ∨ copyOk n = false := by
      by_cases h : f = n
      · subst h; exact Or.inr hf
      · exact Or.inl h
    by_cases hb : WearableDock.isBinEntry n = false
    · rw [if_pos hb]; exact ih f hf
    · rw [if_neg hb]
      by_cases hj : ((WearableDock.join_path src n PATH_MAX).isNone ||
          (WearableDock.join_path dest n PATH_MAX).isNone) = true
      · rw [if_pos hj]; exact ih f hf
      · rw [if_neg hj]
        by_cases hc : copyOk n = true
        · rw [if_pos hc]
          have hne : f ≠ n := by
            rcases hfn with h | h
            · exact h
            · rw [hc] at h; exact absurd h (by simp)
          constructor
          · simp only [List.mem_cons, not_or]
            exact ⟨hne, (ih f hf).1⟩
          · simp only
            by_cases hu : unlinkOk n = true
            · rw [if_pos hu]
              simp only [List.mem_cons, not_or]
              exact ⟨hne, (ih f hf).2⟩
            · rw [if_neg hu]; exact (ih f hf).2
        · rw [if_neg hc]
          simp only
          exact ih f hf

/-- Claim C7. During per-file extraction, a source log file is deleted only
after its copy completed successfully (`unlink` is reachable only inside
the `copy_file(...) == 0` branch), and a copy failure on one file does not
abort processing of the remaining files: the set of files attempted is
exactly the eligible directory entries, independent of any per-file
outcome; every eligible file whose copy succeeds is copied even when other
files fail; and a file whose copy fails is neither recorded as copied nor
deleted, so its source survives. -/
theorem C7_delete_only_after_copy
    (src dest : CStr) (entries : List CStr) (copyOk unlinkOk : CStr → Bool) :
    ((WearableDock.copy_and_delete_logs src dest entries copyOk unlinkOk).attempted =
      entries.filter (WearableDock.eligibleEntry src dest)) ∧
    (∀ f, f ∈ (WearableDock.copy_and_delete_logs src dest entries copyOk unlinkOk).deleted →
      f ∈ (WearableDock.copy_and_delete_logs src dest entries copyOk unlinkOk).copied ∧
        copyOk f = true) ∧
    (∀ f, f ∈ entries → WearableDock.eligibleEntry src dest f = true →
      copyOk f = true →
      f ∈ (WearableDock.copy_and_delete_logs src dest entries copyOk unlinkOk).copied) ∧
    (∀ f, copyOk f = false →
      f ∉ (WearableDock.copy_and_delete_logs src dest entries copyOk unlinkOk).copied ∧
      f ∉ (WearableDock.copy_and_delete_logs src dest entries copyOk unlinkOk).deleted) :=
  ⟨copy_logs_attempted_eq src dest copyOk unlinkOk entries,
   copy_logs_deleted_sub src dest copyOk unlinkOk entries,
   copy_logs_copied_mem src dest copyOk unlinkOk entries,
   copy_logs_copyFail_not_mem src dest copyOk unlinkOk entries⟩

/-- Witness for C7 at a concrete run: entries `A.BIN`, `B.bin`, `C.txt`
with the copy of `A.BIN` failing: `B.bin` is still copied and deleted,
`A.BIN` is attempted but neither copied nor deleted, `C.txt` is ignored. -/
theorem C7_delete_only_after_copy_witness :
    ((WearableDock.copy_and_delete_logs "/src".data "/dst".data
        ["A.BIN".data, "B.bin".data, "C.txt".data]
        (fun f => f ≠ "A.BIN".data) (fun _ => true)).attempted =
      ["A.BIN".data, "B.bin".data].filter
        (WearableDock.eligibleEntry "/src".data "/dst".data) ∧
      "A.BIN".data ∈ ["A.BIN".data, "B.bin".data, "C.txt".data]) ∧
    ("B.bin".data ∈ (WearableDock.copy_and_delete_logs "/src".data "/dst".data
        ["A.BIN".data, "B.bin".data, "C.txt".data]
        (fun f => f ≠ "A.BIN".data) (fun _ => true)).copied) ∧
    ("A.BIN".data ∉ (WearableDock.copy_and_delete_logs "/src".data "/dst".data
        ["A.BIN".data, "B.bin".data, "C.txt".data]
        (fun f => f ≠ "A.BIN".data) (fun _ => true)).copied ∧
      "A.BIN".data ∉ (WearableDock.copy_and_delete_logs "/src".data "/dst".data
        ["A.BIN".data, "B.bin".data, "C.txt".data]
        (fun f => f ≠ "A.BIN".data) (fun _ => true)).deleted) := by
  have h := C7_delete_only_after_copy "/src".data "/dst".data
    ["A.BIN".data, "B.bin".data, "C.txt".data]
    (fun f => f ≠ "A.BIN".data) (fun _ => true)
  refine ⟨⟨?_, by decide⟩, ?_, h.2.2.2 "A.BIN".data (by decide)⟩
  · rw [h.1]; decide
  · exact h.2.2.1 "B.bin".data (by decide) (by decide) (by decide)

/-- Claim C8, counterexample.  The claim says any file whose extension equals
`".bin"` in any mixture of letter cases — e.g. `".Bin"` — is copied and
later decoded.  The code compares the last-dot suffix with `strcmp`
against exactly `".BIN"` and `".bin"`: the file `LOG.Bin` has a
case-insensitively matching extension, yet both the extractor's and the
decoder's selection tests reject it and `copy_and_delete_logs` neither
attempts, copies nor deletes it. -/
theorem C8_counterexample :
    WearableDock.caseInsensitiveBinExt "LOG.Bin".data = true ∧
    WearableDock.isBinEntry "LOG.Bin".data = false ∧
    WearableDock.convertSelects "LOG.Bin".data = false ∧
    WearableDock.copy_and_delete_logs "/src".data "/dst".data
        ["LOG.Bin".data] (fun _ => true) (fun _ => true) = ⟨[], [], []⟩ := by
  refine ⟨by decide, by decide, by decide, by decide⟩

/-- Claim C8, amended.  The Extractor and the Telemetry Decoder apply the
same selection test, which accepts a file exactly when its name is not
dot-initial and its last-dot suffix is exactly `".BIN"` or exactly
`".bin"`; all other extensions — including other casings of `.bin` such as
`".Bin"` — are ignored.  Every file the code selects does have a
case-insensitively `.bin` extension (the code's test refines the claim's),
but not conversely. -/
theorem C8_extension_selection (n : CStr) :
    (WearableDock.convertSelects n = WearableDock.isBinEntry n) ∧
    (WearableDock.isBinEntry n = true ↔
      (WearableDock.isDotName n = false ∧
        (WearableDock.ext_of n = some ".BIN".data ∨
         WearableDock.ext_of n = some ".bin".data))) ∧
    (WearableDock.isBinEntry n = true → WearableDock.caseInsensitiveBinExt n = true) := by
  refine ⟨rfl, ?_, ?_⟩
  · simp [WearableDock.isBinEntry, Bool.and_eq_true, Bool.not_eq_true']
  · intro h
    simp only [WearableDock.isBinEntry, Bool.and_eq_true, Bool.not_eq_true',
      Bool.or_eq_true, decide_eq_true_eq] at h
    simp only [WearableDock.caseInsensitiveBinExt, Bool.and_eq_true, Bool.not_eq_true',
      decide_eq_true_eq]
    refine ⟨h.1, ?_⟩
    rcases h.2 with he | he <;> rw [he] <;> rfl

/-- Witness for C8 (amended): `DATA.bin` and `DATA.BIN` are selected by
both sites, `DATA.txt` and `DATA.Bin` by neither. -/
theorem C8_extension_selection_witness :
    WearableDock.isBinEntry "DATA.bin".data = true ∧
    WearableDock.isBinEntry "DATA.BIN".data = true ∧
    WearableDock.isBinEntry "DATA.txt".data = false ∧
    WearableDock.convertSelects "DATA.bin".data = true ∧
    WearableDock.caseInsensitiveBinExt "DATA.bin".data = true := by
  have h1 := (C8_extension_selection "DATA.bin".data).2.1.mpr
    ⟨by decide, Or.inr (by decide)⟩
  have h2 := (C8_extension_selection "DATA.BIN".data).2.1.mpr
    ⟨by decide, Or.inl (by decide)⟩
  have h4 : WearableDock.convertSelects "DATA.bin".data = true := by
    rw [(C8_extension_selection "DATA.bin".data).1]; exact h1
  exact ⟨h1, h2, by decide, h4,
    (C8_extension_selection "DATA.bin".data).2.2 h1⟩

/-- Claim C9, counterexample.  The claim says the path-joining operation
never writes a truncated result.  The dedicated helpers do reject, but the
tree-copy callback `cp_cb` of `dfu_and_extract.c` builds its destination
path with a bare `snprintf(dst, sizeof dst, "%s%s", …)` and no overflow
check: for a source file whose path under the mount point is 4080
characters, the combined destination path (4119 characters) exceeds
`PATH_MAX`, yet `cp_cb` silently uses the 4095-character truncation. -/
theorem C9_counterexample :
    PATH_MAX ≤ (DfuExtract.DEST_BASE ++ List.replicate 4080 'a').length ∧
    (DfuExtract.MOUNT_POINT ++ List.replicate 4080 'a').drop
        DfuExtract.MOUNT_POINT.length = List.replicate 4080 'a' ∧
    DfuExtract.cp_cb_dst DfuExtract.DEST_BASE DfuExtract.MOUNT_POINT
        (DfuExtract.MOUNT_POINT ++ List.replicate 4080 'a') ≠
      DfuExtract.DEST_BASE ++ List.replicate 4080 'a' ∧
    (DfuExtract.cp_cb_dst DfuExtract.DEST_BASE DfuExtract.MOUNT_POINT
        (DfuExtract.MOUNT_POINT ++ List.replicate 4080 'a')).length =
      PATH_MAX - 1 := by
  have hbase : DfuExtract.DEST_BASE.length = 39 := by decide
  have hfull : (DfuExtract.DEST_BASE ++ List.replicate 4080 'a').length = 4119 := by
    rw [List.length_append, List.length_replicate, hbase]
  have hdrop : (DfuExtract.MOUNT_POINT ++ List.replicate 4080 'a').drop
      DfuExtract.MOUNT_POINT.length = List.replicate 4080 'a' :=
    List.drop_left _ _
  have h3 : (DfuExtract.cp_cb_dst DfuExtract.DEST_BASE DfuExtract.MOUNT_POINT
      (DfuExtract.MOUNT_POINT ++ List.replicate 4080 'a')).length =
      PATH_MAX - 1 := by
    simp only [DfuExtract.cp_cb_dst, DfuExtract.snprintf_trunc, hdrop,
      List.length_take, hfull]
    decide
  refine ⟨by rw [hfull]; decide, hdrop, ?_, h3⟩
  intro h
  have hlen := congrArg List.length h
  rw [h3, hfull] at hlen
  simp [PATH_MAX] at hlen

/-- Claim C9, amended.  The dedicated path-joining helpers reject over-long
combinations: `join_path` (`wearable_dock.c`) and `path_join`
(`bin2json_mqtt.c`) report an error whenever the combined length would
reach the buffer size, and any path they do return is the untruncated join
and fits; but the tree-copy callback `cp_cb` of `dfu_and_extract.c` builds
destination paths with an unchecked bounded write: whenever the combined
length reaches `PATH_MAX` it uses a silently truncated path and reports no
error. -/
theorem C9_join_rejects_overflow (a b : CStr) (out_sz : Nat) :
    (out_sz ≤ a.length + 1 + b.length →
      WearableDock.join_path a b out_sz = none) ∧
    (∀ s, WearableDock.join_path a b out_sz = some s →
      s = a ++ '/' :: b ∧ s.length < out_sz) ∧
    (PATH_MAX ≤ a.length + 1 + b.length → Bin2Json.path_join a b = none) ∧
    (∀ s, Bin2Json.path_join a b = some s →
      s = a ++ '/' :: b ∧ s.length < PATH_MAX) ∧
    (∀ (r sr f : CStr), PATH_MAX ≤ (r ++ f.drop sr.length).length →
      (DfuExtract.cp_cb_dst r sr f).length = PATH_MAX - 1 ∧
      DfuExtract.cp_cb_dst r sr f ≠ r ++ f.drop sr.length) := by
  have hlen : (a ++ '/' :: b).length = a.length + 1 + b.length := by
    simp [List.length_append]
    omega
  refine ⟨?_, ?_, ?_, ?_, ?_⟩
  · intro h
    simp only [WearableDock.join_path]
    rw [if_pos (by omega : out_sz ≤ (a ++ '/' :: b).length)]
  · intro s hs
    simp only [WearableDock.join_path] at hs
    split at hs
    · exact absurd hs (by simp)
    · rename_i hc
      have hv := Option.some.inj hs
      subst hv
      exact ⟨rfl, by omega⟩
  · intro h
    simp only [Bin2Json.path_join]
    rw [if_pos (by omega : PATH_MAX ≤ a.length + 1 + b.length)]
  · intro s hs
    simp only [Bin2Json.path_join] at hs
    split at hs
    · exact absurd hs (by simp)
    · rename_i hc
      have := Option.some.inj hs
      subst this
      exact ⟨rfl, by omega⟩
  · intro r sr f h
    have h1 : (DfuExtract.cp_cb_dst r sr f).length = PATH_MAX - 1 := by
      simp only [DfuExtract.cp_cb_dst, DfuExtract.snprintf_trunc,
        List.length_take]
      omega
    refine ⟨h1, ?_⟩
    intro he
    have := congrArg List.length he
    rw [h1] at this
    simp only [PATH_MAX] at this h
    omega

/-- Witness for C9 (amended): an over-long pair is rejected by both
helpers; a fitting pair joins exactly; the `cp_cb` destination for an
over-long combination is the truncation. -/
theorem C9_join_rejects_overflow_witness :
    WearableDock.join_path (List.replicate 4090 'a') "name.bin".data
        PATH_MAX = none ∧
    Bin2Json.path_join (List.replicate 4090 'a') "name.bin".data = none ∧
    (∀ s, WearableDock.join_path "/mnt/wearable".data "logs".data PATH_MAX =
        some s → s = "/mnt/wearable".data ++ '/' :: "logs".data ∧
        s.length < PATH_MAX) ∧
    (DfuExtract.cp_cb_dst (List.replicate 4090 'a') [] "/file.bin".data).length =
      PATH_MAX - 1 := by
  have h1 := C9_join_rejects_overflow (List.replicate 4090 'a')
    "name.bin".data PATH_MAX
  have h2 := C9_join_rejects_overflow "/mnt/wearable".data "logs".data PATH_MAX
  have h3 := (C9_join_rejects_overflow [] [] 0).2.2.2.2
    (List.replicate 4090 'a') [] "/file.bin".data
  refine ⟨h1.1 ?_, h1.2.2.1 ?_, h2.2.1, (h3 ?_).1⟩
  · rw [List.length_replicate]; decide
  · rw [List.length_replicate]; decide
  · simp only [List.length_nil, List.drop_zero, List.length_append,
      List.length_replicate]
    decide

theorem strcmp_self (a : CStr) : Bin2Json.strcmp a a = 0 := by
  induction a with
  | nil => rfl
  | cons x xs ih => simp [Bin2Json.strcmp, ih]

theorem strcmp_antisym (a b : CStr) :
    Bin2Json.strcmp a b = - Bin2Json.strcmp b a := by
  induction a generalizing b with
  | nil => cases b <;> simp [Bin2Json.strcmp]
  | cons x xs ih =>
    cases b with
    | nil => simp [Bin2Json.strcmp]
    | cons y ys =>
      simp only [Bin2Json.strcmp]
      rcases Nat.lt_trichotomy x.toNat y.toNat with h | h | h
      · rw [if_pos h, if_neg (by omega), if_pos h]
      · rw [if_neg (by omega), if_neg (by omega), if_neg (by omega),
          if_neg (by omega)]
        exact ih ys
      · rw [if_neg (by omega), if_pos h, if_pos h]; rfl

theorem strcmp_trans_le :
    ∀ (a b c : CStr), Bin2Json.strcmp a b ≤ 0 → Bin2Json.strcmp b c ≤ 0 →
      Bin2Json.strcmp a c ≤ 0 := by
  intro a
  induction a with
  | nil =>
    intro b c _ _
    cases c <;> simp [Bin2Json.strcmp]
  | cons x xs ih =>
    intro b c h1 h2
    cases b with
    | nil => simp [Bin2Json.strcmp] at h1
    | cons y ys =>
      cases c with
      | nil => simp [Bin2Json.strcmp] at h2
      | cons z zs =>
        simp only [Bin2Json.strcmp] at h1 h2 ⊢
        split_ifs at h1 h2 ⊢ <;> try omega
        all_goals exact ih ys zs h1 h2

theorem foldl_bestStep_none :
    ∀ (entries : List Bin2Json.DirEnt) (best : Option CStr),
      entries.foldl Bin2Json.bestStep best = none →
      best = none ∧ ∀ e ∈ entries, Bin2Json.eligibleDir e = false := by
  intro entries
  induction entries with
  | nil =>
    intro best h
    exact ⟨h, by simp⟩
  | cons x xs ih =>
    intro best h
    simp only [List.foldl_cons] at h
    obtain ⟨hstep, hrest⟩ := ih _ h
    by_cases he : Bin2Json.eligibleDir x = false
    · have hb : best = none := by
        simpa [Bin2Json.bestStep, he] using hstep
      refine ⟨hb, ?_⟩
      intro e hmem
      rcases List.mem_cons.mp hmem with hex | hm
      · rw [hex]; exact he
      · exact hrest e hm
    · exfalso
      cases best with
      | none =>
        simp [Bin2Json.bestStep, if_neg he] at hstep
      | some b =>
        simp only [Bin2Json.bestStep, if_neg he] at hstep
        split at hstep <;> simp at hstep

theorem foldl_bestStep_none_of :
    ∀ (entries : List Bin2Json.DirEnt),
      (∀ e ∈ entries, Bin2Json.eligibleDir e = false) →
      entries.foldl Bin2Json.bestStep none = none := by
  intro entries
  induction entries with
  | nil => intro _; rfl
  | cons x xs ih =>
    intro h
    simp only [List.foldl_cons]
    have hx : Bin2Json.bestStep none x = none := by
      simp [Bin2Json.bestStep, h x (List.mem_cons_self _ _)]
    rw [hx]
    exact ih (fun e hm => h e (List.mem_cons_of_mem _ hm))

theorem foldl_bestStep_max :
    ∀ (entries : List Bin2Json.DirEnt) (best : Option CStr) (m : CStr),
      entries.foldl Bin2Json.bestStep best = some m →
      ((∃ e ∈ entries, Bin2Json.eligibleDir e = true ∧ e.d_name = m) ∨
        best = some m) ∧
      (∀ e ∈ entries, Bin2Json.eligibleDir e = true →
        Bin2Json.strcmp e.d_name m ≤ 0) ∧
      (∀ b, best = some b → Bin2Json.strcmp b m ≤ 0) := by
  intro entries
  induction entries with
  | nil =>
    intro best m h
    simp only [List.foldl_nil] at h
    refine ⟨Or.inr h, by simp, ?_⟩
    intro b hb
    rw [h] at hb
    have hmb := Option.some.inj hb
    subst hmb
    simp [strcmp_self]
  | cons x xs ih =>
    intro best m h
    simp only [List.foldl_cons] at h
    by_cases he : Bin2Json.eligibleDir x = true
    · cases best with
      | none =>
        have hstep : Bin2Json.bestStep none x = some x.d_name := by
          simp [Bin2Json.bestStep, he]
        rw [hstep] at h
        obtain ⟨horig, hdom, hbest⟩ := ih _ m h
        have hxm : Bin2Json.strcmp x.d_name m ≤ 0 := hbest _ rfl
        refine ⟨?_, ?_, ?_⟩
        · rcases horig with ⟨e, hexs, hee, hem⟩ | hsome
          · exact Or.inl ⟨e, List.mem_cons_of_mem _ hexs, hee, hem⟩
          · exact Or.inl ⟨x, List.mem_cons_self _ _, he, Option.some.inj hsome⟩
        · intro e hmem hel
          rcases List.mem_cons.mp hmem with hex | hm
          · rw [hex]; exact hxm
          · exact hdom e hm hel
        · intro b hb; cases hb
      | some b =>
        by_cases hgt : 0 < Bin2Json.strcmp x.d_name b
        · have hstep : Bin2Json.bestStep (some b) x = some x.d_name := by
            simp [Bin2Json.bestStep, he, hgt]
          rw [hstep] at h
          obtain ⟨horig, hdom, hbest⟩ := ih _ m h
          have hxm : Bin2Json.strcmp x.d_name m ≤ 0 := hbest _ rfl
          have hbx : Bin2Json.strcmp b x.d_name ≤ 0 := by
            rw [strcmp_antisym]; omega
          refine ⟨?_, ?_, ?_⟩
          · rcases horig with ⟨e, hexs, hee, hem⟩ | hsome
            · exact Or.inl ⟨e, List.mem_cons_of_mem _ hexs, hee, hem⟩
            · exact Or.inl ⟨x, List.mem_cons_self _ _, he, Option.some.inj hsome⟩
          · intro e hmem hel
            rcases List.mem_cons.mp hmem with hex | hm
            · rw [hex]; exact hxm
            · exact hdom e hm hel
          · intro b' hb'
            have hb2 := Option.some.inj hb'
            subst hb2
            exact strcmp_trans_le b x.d_name m hbx hxm
        · have hstep : Bin2Json.bestStep (some b) x = some b := by
            simp [Bin2Json.bestStep, he, hgt]
          rw [hstep] at h
          obtain ⟨horig, hdom, hbest⟩ := ih _ m h
          have hbm : Bin2Json.strcmp b m ≤ 0 := hbest b rfl
          refine ⟨?_, ?_, ?_⟩
          · rcases horig with ⟨e, hexs, hee, hem⟩ | hsome
            · exact Or.inl ⟨e, List.mem_cons_of_mem _ hexs, hee, hem⟩
            · exact Or.inr hsome
          · intro e hmem hel
            rcases List.mem_cons.mp hmem with hex | hm
            · rw [hex]
              have hxb : Bin2Json.strcmp x.d_name b ≤ 0 := by omega
              exact strcmp_trans_le _ b _ hxb hbm
            · exact hdom e hm hel
          · intro b' hb'
            have hb2 := Option.some.inj hb'
            subst hb2
            exact hbm
    · have he' : Bin2Json.eligibleDir x = false := (Bool.not_eq_true _).mp he
      have hstep : Bin2Json.bestStep best x = best := by
        simp [Bin2Json.bestStep, he']
      rw [hstep] at h
      obtain ⟨horig, hdom, hbest⟩ := ih _ m h
      refine ⟨?_, ?_, hbest⟩
      · rcases horig with ⟨e, hexs, hee, hem⟩ | hsome
        · exact Or.inl ⟨e, List.mem_cons_of_mem _ hexs, hee, hem⟩
        · exact Or.inr hsome
      · intro e hmem hel
        rcases List.mem_cons.mp hmem with hex | hm
        · exfalso; rw [hex] at hel; exact he hel
        · exact hdom e hm hel

theorem bin2json_main_cases (entries : List Bin2Json.DirEnt)
    (openOk mqttOk mkArchiveOk renameOk : Bool) :
    ((Bin2Json.bin2json_main entries openOk mqttOk mkArchiveOk renameOk).processed =
        none ∧
      (Bin2Json.bin2json_main entries openOk mqttOk mkArchiveOk renameOk).archived =
        none) ∨
    (∃ ts, Bin2Json.find_latest_folder entries = some ts ∧
      (Bin2Json.bin2json_main entries openOk mqttOk mkArchiveOk renameOk).processed =
        some ts ∧
      ((Bin2Json.bin2json_main entries openOk mqttOk mkArchiveOk renameOk).archived =
          none ∨
        (Bin2Json.bin2json_main entries openOk mqttOk mkArchiveOk renameOk).archived =
          some ts)) := by
  cases hfl : Bin2Json.find_latest_folder entries with
  | none =>
    refine Or.inl ⟨?_, ?_⟩ <;> simp [Bin2Json.bin2json_main, hfl]
  | some ts =>
    cases hp1 : Bin2Json.path_join Bin2Json.EXTRACTED_BASE ts with
    | none =>
      refine Or.inl ⟨?_, ?_⟩ <;> simp [Bin2Json.bin2json_main, hfl, hp1]
    | some folder =>
      cases hp2 : Bin2Json.path_join folder Bin2Json.BIN_NAME with
      | none =>
        refine Or.inl ⟨?_, ?_⟩ <;> simp [Bin2Json.bin2json_main, hfl, hp1, hp2]
      | some bin =>
        by_cases ho : openOk = false
        · refine Or.inl ⟨?_, ?_⟩ <;>
            simp [Bin2Json.bin2json_main, hfl, hp1, hp2, ho]
        · by_cases hq : mqttOk = false
          · refine Or.inl ⟨?_, ?_⟩ <;>
              simp [Bin2Json.bin2json_main, hfl, hp1, hp2, ho, hq]
          · cases hp3 : Bin2Json.path_join Bin2Json.EXTRACTED_BASE
                Bin2Json.ARCHIVE_SUBDIR with
            | none =>
              refine Or.inr ⟨ts, rfl, ?_, Or.inl ?_⟩ <;>
                simp [Bin2Json.bin2json_main, hfl, hp1, hp2, ho, hq, hp3]
            | some archive_dir =>
              by_cases hm : mkArchiveOk = false
              · refine Or.inr ⟨ts, rfl, ?_, Or.inl ?_⟩ <;>
                  simp [Bin2Json.bin2json_main, hfl, hp1, hp2, ho, hq, hp3, hm]
              · cases hp4 : Bin2Json.path_join archive_dir ts with
                | none =>
                  refine Or.inr ⟨ts, rfl, ?_, Or.inl ?_⟩ <;>
                    simp [Bin2Json.bin2json_main, hfl, hp1, hp2, ho, hq, hp3,
                      hm, hp4]
                | some target =>
                  by_cases hr : renameOk = true
                  · refine Or.inr ⟨ts, rfl, ?_, Or.inr ?_⟩ <;>
                      simp [Bin2Json.bin2json_main, hfl, hp1, hp2, ho, hq, hp3,
                        hm, hp4, hr]
                  · refine Or.inr ⟨ts, rfl, ?_, Or.inl ?_⟩ <;>
                      simp [Bin2Json.bin2json_main, hfl, hp1, hp2, ho, hq, hp3,
                        hm, hp4, hr]

/-- Claim C10. Each run of the standalone decoder/publisher processes at most
one session, namely the subdirectory of the sessions root with the
lexicographically greatest (`strcmp`) name among directory entries
excluding `"."`, `".."` and the `archive` subdirectory; every other
session directory is left untouched (never processed, never archived);
and when no such subdirectory exists the run fails with exit status 1
having processed and archived nothing. -/
theorem C10_latest_session_only (entries : List Bin2Json.DirEnt)
    (openOk mqttOk mkArchiveOk renameOk : Bool) :
    (Bin2Json.find_latest_folder entries = none ↔
      ∀ e ∈ entries, Bin2Json.eligibleDir e = false) ∧
    (∀ m, Bin2Json.find_latest_folder entries = some m →
      (∃ e ∈ entries, Bin2Json.eligibleDir e = true ∧ e.d_name = m) ∧
      ∀ e ∈ entries, Bin2Json.eligibleDir e = true →
        Bin2Json.strcmp e.d_name m ≤ 0) ∧
    (Bin2Json.find_latest_folder entries = none →
      Bin2Json.bin2json_main entries openOk mqttOk mkArchiveOk renameOk =
        ⟨1, none, none⟩) ∧
    (∀ t, (Bin2Json.bin2json_main entries openOk mqttOk mkArchiveOk
        renameOk).processed = some t →
      Bin2Json.find_latest_folder entries = some t) ∧
    (∀ t, (Bin2Json.bin2json_main entries openOk mqttOk mkArchiveOk
        renameOk).archived = some t →
      (Bin2Json.bin2json_main entries openOk mqttOk mkArchiveOk
        renameOk).processed = some t) := by
  refine ⟨⟨?_, ?_⟩, ?_, ?_, ?_, ?_⟩
  · intro h
    exact (foldl_bestStep_none entries none h).2
  · intro h
    exact foldl_bestStep_none_of entries h
  · intro m h
    obtain ⟨horig, hdom, _⟩ := foldl_bestStep_max entries none m h
    rcases horig with he | hnone
    · exact ⟨he, hdom⟩
    · cases hnone
  · intro h
    simp [Bin2Json.bin2json_main, h]
  · intro t ht
    rcases bin2json_main_cases entries openOk mqttOk mkArchiveOk renameOk with
      ⟨hp, _⟩ | ⟨ts, hfl, hp, _⟩
    · rw [hp] at ht; cases ht
    · rw [hp] at ht
      rw [← Option.some.inj ht]
      exact hfl
  · intro t ht
    rcases bin2json_main_cases entries openOk mqttOk mkArchiveOk renameOk with
      ⟨_, ha⟩ | ⟨ts, hfl, hp, ha⟩
    · rw [ha] at ht; cases ht
    · rcases ha with ha | ha
      · rw [ha] at ht; cases ht
      · rw [ha] at ht
        rw [← Option.some.inj ht]
        exact hp

/-- Witness for C10 at a concrete sessions root: of the folders
`20250101_000000`, `20250102_000000` and `archive`, the run selects
`20250102_000000` (the lexicographically greatest eligible name), leaves
the older session untouched, and a root with only `archive` makes the run
exit 1 processing nothing. -/
theorem C10_latest_session_only_witness :
    Bin2Json.find_latest_folder
        [⟨"20250101_000000".data, true⟩, ⟨"20250102_000000".data, true⟩,
         ⟨"archive".data, true⟩] = some "20250102_000000".data ∧
    (∀ e ∈ [(⟨"20250101_000000".data, true⟩ : Bin2Json.DirEnt),
        ⟨"20250102_000000".data, true⟩, ⟨"archive".data, true⟩],
      Bin2Json.eligibleDir e = true →
        Bin2Json.strcmp e.d_name "20250102_000000".data ≤ 0) ∧
    Bin2Json.bin2json_main [⟨"archive".data, true⟩] true true true true =
      ⟨1, none, none⟩ ∧
    (Bin2Json.bin2json_main
        [⟨"20250101_000000".data, true⟩, ⟨"20250102_000000".data, true⟩,
         ⟨"archive".data, true⟩] true true true true).processed =
      some "20250102_000000".data := by
  have hfl : Bin2Json.find_latest_folder
      [⟨"20250101_000000".data, true⟩, ⟨"20250102_000000".data, true⟩,
       ⟨"archive".data, true⟩] = some "20250102_000000".data := by decide
  have h := C10_latest_session_only
    [⟨"20250101_000000".data, true⟩, ⟨"20250102_000000".data, true⟩,
     ⟨"archive".data, true⟩] true true true true
  have h2 := C10_latest_session_only [⟨"archive".data, true⟩] true true true true
  refine ⟨hfl, (h.2.1 "20250102_000000".data hfl).2, h2.2.2.1 ?_, by decide⟩
  exact h2.1.mpr (by decide)
